import Mathlib

/-! # go-photo-sorter: a shallow embedding of `main.go`

The per-file pipeline of the photo sorter (tag interpretation, date
resolution, destination path derivation, collision suffixing and the driver
step) is embedded as pure Lean functions and its specification is checked
against the embedding.

Conventions of the embedding:

* a Go `string` is a list of code points (`Str`);
* a `time.Time` is its absolute instant: seconds and nanoseconds counted from
  January 1 of year 1, 00:00:00 UTC, which is exactly what `Time.IsZero`
  inspects (the location pointer is dropped);
* every read of `time.Now()` is an explicit argument;
* the filesystem is what `os.Stat` answers for each path: found, does not
  exist, or another error;
* the results of the third-party parsers are explicit arguments;
* `time.Time.Format` and `time.Parse` (standard library, zone dependent) are
  parameters.
-/

namespace PhotoSorter

set_option maxRecDepth 100000

/-- A Go string, as the list of its code points. -/
abbrev Str := List Char

/-! ## Standard-library functions used by `main.go` -/

/-- The predicate `unicode.IsSpace`: the Latin-1 spaces
`\t \n \v \f \r`, space, U+0085, U+00A0 and the code points with the
`White_Space` property. -/
def isSpace (c : Char) : Bool :=
  let n := c.toNat
  (decide (9 ≤ n) && decide (n ≤ 13)) || n == 32 || n == 0x85 || n == 0xA0 || n == 0x1680 ||
    (decide (0x2000 ≤ n) && decide (n ≤ 0x200A)) || n == 0x2028 || n == 0x2029 ||
    n == 0x202F || n == 0x205F || n == 0x3000

/-- The function `strings.TrimSpace`: removes all leading and all trailing
white space. -/
def TrimSpace (s : Str) : Str :=
  (s.dropWhile isSpace).rdropWhile isSpace

/-- Scan of `filepath.Ext` from the end of the path towards its start: `rev`
holds the characters not yet visited (last one first), `acc` the characters
already visited. -/
def extScan : Str → Str → Str
  | [], _ => []
  | c :: rev, acc =>
    if c = '/' then []
    else if c = '.' then '.' :: acc
    else extScan rev (c :: acc)

/-- The function `filepath.Ext` with `/` as the path separator: the suffix
beginning at the final dot of the final path element, empty if there is no
dot. -/
def Ext (p : Str) : Str :=
  extScan p.reverse []

/-- The function `strings.TrimSuffix`. -/
def TrimSuffix (s suffix : Str) : Str :=
  if suffix.isSuffixOf s then s.take (s.length - suffix.length) else s

/-- The decimal digit `d` as a character. -/
def digitChar (d : Nat) : Char :=
  Char.ofNat (48 + d)

/-- Digits of `n`, most significant first, pushed in front of `acc`. -/
def itoaAux : Nat → Nat → Str → Str
  | 0, _, acc => acc
  | fuel + 1, n, acc =>
    if n / 10 = 0 then digitChar (n % 10) :: acc
    else itoaAux fuel (n / 10) (digitChar (n % 10) :: acc)

/-- The function `strconv.Itoa` on a non-negative integer. -/
def Itoa (n : Nat) : Str :=
  itoaAux (n + 1) n []

/-- Splits a path at every `/`; the result is never empty. -/
def splitSlash : Str → List Str
  | [] => [[]]
  | c :: cs =>
    if c = '/' then [] :: splitSlash cs
    else
      match splitSlash cs with
      | [] => [[c]]
      | h :: t => (c :: h) :: t

/-- One path element processed by `path.Clean`. The stack holds the elements
kept so far, last one first. Empty elements and `.` are dropped; `..` removes
the previous element when there is one that is not itself `..`, is dropped at
the root, and is kept otherwise; any other element is kept. -/
def cleanStep (rooted : Bool) (stack : List Str) (comp : Str) : List Str :=
  if comp = [] ∨ comp = ['.'] then stack
  else if comp = ['.', '.'] then
    match stack with
    | [] => if rooted then [] else [['.', '.']]
    | top :: rest => if top = ['.', '.'] then ['.', '.'] :: stack else rest
  else comp :: stack

/-- Joins path elements with `/`. -/
def joinSlash : List Str → Str
  | [] => []
  | [c] => c
  | c :: cs => c ++ '/' :: joinSlash cs

/-- The function `path.Clean` of the Go standard library, at the level of
path elements: the shortest path equivalent to `p` by lexical processing
(multiple slashes collapsed, `.` elements removed, inner `..` elements removed
together with the element before them, `..` at the root removed); the empty
path cleans to `.`. -/
def Clean (p : Str) : Str :=
  if p = [] then ['.']
  else
    let rooted := p.head? = some '/'
    let stack := (splitSlash p).foldl (cleanStep rooted) []
    if rooted then '/' :: joinSlash stack.reverse
    else if stack = [] then ['.']
    else joinSlash stack.reverse

/-- A `time.Time` value: the instant as seconds and nanoseconds since
January 1, year 1, 00:00:00 UTC. -/
structure Time where
  sec : Int
  nsec : Nat
  deriving DecidableEq, Repr

/-- The zero value `time.Time{}`. -/
def Time.zero : Time := ⟨0, 0⟩

/-- The method `Time.IsZero`. -/
def Time.IsZero (t : Time) : Bool :=
  t.sec == 0 && t.nsec == 0

/-- Wrap-around of a signed 64-bit integer. -/
def wrapInt64 (x : Int) : Int :=
  (x + 2 ^ 63) % 2 ^ 64 - 2 ^ 63

/-- The function `time.Unix(sec, 0)`: the instant `sec` seconds after
January 1, 1970 UTC (62135596800 seconds after the zero instant). -/
def timeUnix (sec : Int) : Time :=
  ⟨wrapInt64 (sec + 62135596800), 0⟩

/-- The two kinds of `strconv.NumError`: `ErrSyntax` (here `invalid`) and
`ErrRange`. -/
inductive NumErr where
  | invalid
  | range
  deriving DecidableEq, Repr

/-- The digit loop of `strconv.ParseUint` for base 10 and 64 bits; `n` is the
value read so far. A character that is not a decimal digit is a syntax error
with value 0; a value that no longer fits is a range error with value
`2^64 - 1`, reported as soon as it occurs, before the rest of the string is
read. -/
def parseUintLoop : Str → Nat → Nat × Option NumErr
  | [], n => (n, none)
  | c :: cs, n =>
    if '0' ≤ c ∧ c ≤ '9' then
      if n ≥ (2 ^ 64 - 1) / 10 + 1 then (2 ^ 64 - 1, some NumErr.range)
      else if n * 10 + (c.toNat - 48) > 2 ^ 64 - 1 then (2 ^ 64 - 1, some NumErr.range)
      else parseUintLoop cs (n * 10 + (c.toNat - 48))
    else (0, some NumErr.invalid)

/-- The function `strconv.ParseUint(s, 10, 0)` on a 64-bit platform. -/
def ParseUint (s : Str) : Nat × Option NumErr :=
  if s = [] then (0, some NumErr.invalid) else parseUintLoop s 0

/-- The function `strconv.ParseInt(s, 10, 0)` on a 64-bit platform: a leading
sign is picked off, the rest goes through `ParseUint`; a syntax error gives 0,
a value out of range gives the nearest 64-bit integer with a range error. -/
def ParseInt (s : Str) : Int × Option NumErr :=
  if s = [] then (0, some NumErr.invalid)
  else
    let neg := decide (s.head? = some '-')
    let rest := if s.head? = some '+' ∨ s.head? = some '-' then s.tail else s
    let (un, err) := ParseUint rest
    if err = some NumErr.invalid then (0, err)
    else if !neg && decide (un ≥ 2 ^ 63) then (2 ^ 63 - 1, some NumErr.range)
    else if neg && decide (un > 2 ^ 63) then (-(2 ^ 63), some NumErr.range)
    else (if neg then -(un : Int) else (un : Int), none)

/-- The digit loop of the fast path of `strconv.Atoi`; `n` is the value read
so far. -/
def atoiFastLoop : Str → Nat → Nat × Option NumErr
  | [], n => (n, none)
  | c :: cs, n =>
    if '0' ≤ c ∧ c ≤ '9' then atoiFastLoop cs (n * 10 + (c.toNat - 48))
    else (0, some NumErr.invalid)

/-- The number of bytes of a string in UTF-8, Go's `len(s)`. -/
def byteLen (s : Str) : Nat :=
  (s.map Char.utf8Size).sum

/-- The function `strconv.Atoi` on a 64-bit platform, with its error: the fast
path for strings of 1 to 18 bytes, `ParseInt(s, 10, 0)` otherwise. -/
def AtoiErr (s : Str) : Int × Option NumErr :=
  if 0 < byteLen s ∧ byteLen s < 19 then
    let signed := decide (s.head? = some '-' ∨ s.head? = some '+')
    let rest := if signed then s.tail else s
    if signed && decide (rest.length < 1) then (0, some NumErr.invalid)
    else
      let (n, err) := atoiFastLoop rest 0
      if err ≠ none then (0, err)
      else (if s.head? = some '-' then -(n : Int) else (n : Int), none)
  else ParseInt s

/-- The integer returned by `strconv.Atoi`; the caller discards the error. -/
def Atoi (s : Str) : Int :=
  (AtoiErr s).1

/-! ## Data model -/

/-- The fields of `exif.ExifTag` read by the program. -/
structure ExifTag where
  TagName : Str
  FormattedFirst : Str
  deriving DecidableEq, Repr

/-- The record `FileInfo`. -/
structure FileInfo where
  FileName : Str
  FileType : Str
  OriginalPath : Str
  NewPath : Str
  CreatedAt : Time
  HasExif : Bool
  CameraMaker : Str
  CameraModel : Str
  TimeOriginal : Time
  TimeDigitized : Time
  FileDateTime : Time
  deriving DecidableEq, Repr

/-- The value `new(FileInfo)`: every field at its zero value. -/
def FileInfo.new : FileInfo :=
  ⟨[], [], [], [], Time.zero, false, [], [], Time.zero, Time.zero, Time.zero⟩

/-! ## Date resolution and path building -/

/-- The method `FileInfo.CameraName`. -/
def FileInfo.CameraName (i : FileInfo) : Str :=
  let result : Str := []
  let result := if i.CameraMaker ≠ [] then result ++ (TrimSpace i.CameraMaker ++ [' ']) else result
  let result := if i.CameraModel ≠ [] then result ++ TrimSpace i.CameraModel else result
  TrimSpace result

/-- The method `FileInfo.getBestDate`; `now` is what `time.Now()` returns if
this call reaches it. -/
def FileInfo.getBestDate (i : FileInfo) (now : Time) : Time :=
  if !i.TimeOriginal.IsZero then i.TimeOriginal
  else if !i.TimeDigitized.IsZero then i.TimeDigitized
  else if !i.TimeOriginal.IsZero then i.TimeOriginal
  else if !i.CreatedAt.IsZero then i.CreatedAt
  else now

/-- The method `FileInfo.getDateDirName`; `Format t layout` stands for
`t.Format(layout)`. -/
def FileInfo.getDateDirName (Format : Time → Str → Str) (i : FileInfo) (now : Time) : Str :=
  let date := i.getBestDate now
  Format date "2006".toList ++ "/".toList ++ Format date "2006-01-02".toList

/-- The method `FileInfo.GetOutputDir`. -/
def FileInfo.GetOutputDir (Format : Time → Str → Str) (i : FileInfo) (now : Time) : Str :=
  let result := i.NewPath ++ "/".toList
  let result := if !i.HasExif then result ++ ("misc/".toList ++ i.FileType ++ "/".toList) else result
  let result := result ++ (i.getDateDirName Format now ++ "/".toList)
  let cam := i.CameraName
  let result := if cam ≠ [] then result ++ (cam ++ "/".toList) else result
  result

/-- What `os.Stat` followed by `os.IsNotExist` can tell about a path: the
path was found (no error), the error says that the path does not exist, or
the call failed with another error (not a directory, permission denied, name
too long, ...) for which `os.IsNotExist` is false. -/
inductive StatResult where
  | found
  | notExist
  | failed
  deriving DecidableEq, Repr

/-- The collision loop of `GetOutputFileName`. `stat` is the answer of
`os.Stat` for each path; the loop is left only when `os.IsNotExist` holds of
it. `clock n` is the reading of `time.Now()` during the `n`-th evaluation of
`GetOutputDir`; `c` and `result` are the loop variables. The loop has no bound
in the source: `none` means that the fuel ran out before the loop reached its
`break`. -/
def FileInfo.collisionLoop (Format : Time → Str → Str) (i : FileInfo) (stat : Str → StatResult)
    (clock : Nat → Time) (originalFileName : Str) : Nat → Nat → Str → Option Str
  | 0, _, _ => none
  | fuel + 1, c, result =>
    if stat result = StatResult.notExist then some result
    else
      let c := c + 1
      FileInfo.collisionLoop Format i stat clock originalFileName fuel c
        (Clean (i.GetOutputDir Format (clock c) ++ "/".toList ++ originalFileName ++ "-".toList
          ++ Itoa c ++ Ext i.FileName))

/-- The method `FileInfo.GetOutputFileName`. -/
def FileInfo.GetOutputFileName (Format : Time → Str → Str) (i : FileInfo)
    (stat : Str → StatResult) (clock : Nat → Time) (fuel : Nat) : Option Str :=
  let result := Clean (i.GetOutputDir Format (clock 0) ++ i.FileName)
  let originalFileName := TrimSuffix i.FileName (Ext i.FileName)
  i.collisionLoop Format stat clock originalFileName fuel 0 result

/-- The method `FileInfo.GetOriginalFilePath`. -/
def FileInfo.GetOriginalFilePath (i : FileInfo) : Str :=
  i.OriginalPath ++ "/".toList ++ i.FileName

/-! ## Tag interpretation and the extractors -/

/-- A Go `error` value, identified by its message. -/
abbrev GoError := Str

/-- The body of the `for ... range et` loop of `processExifTags` for one tag;
`Parse layout value` is the time returned by `time.Parse(layout, value)` (its
error is discarded by the caller). -/
def tagStep (Parse : Str → Str → Time) (info : FileInfo) (tag : ExifTag) : FileInfo :=
  let tagName := TrimSpace tag.TagName
  if tagName = "Make".toList then { info with CameraMaker := tag.FormattedFirst }
  else if tagName = "Model".toList then { info with CameraModel := tag.FormattedFirst }
  else if tagName = "DateTimeOriginal".toList then
    { info with TimeOriginal := Parse "2006:01:02 15:04:05".toList tag.FormattedFirst }
  else if tagName = "DateTimeDigitized".toList then
    { info with TimeDigitized := Parse "2006:01:02 15:04:05".toList tag.FormattedFirst }
  else if tagName = "FileDateTime".toList then
    { info with FileDateTime := timeUnix (Atoi tag.FormattedFirst) }
  else info

/-- The function `processExifTags`. -/
def processExifTags (Parse : Str → Str → Time) (info : FileInfo) (et : List ExifTag) : FileInfo :=
  if et.length = 0 then info
  else et.foldl (tagStep Parse) { info with HasExif := true }

/-- What one call of `SegmentList.DumpExif` yields: the tag slice (`none` is
the nil slice) and the error. -/
structure DumpResult where
  et : Option (List ExifTag)
  err : Option GoError
  deriving DecidableEq, Repr

/-- What the JPEG library yields for one file: the number of segments of the
parsed segment list and the results of the first and of the second call of
`DumpExif` on it. -/
structure SegmentList where
  segments : Nat
  dump1 : DumpResult
  dump2 : DumpResult
  deriving DecidableEq, Repr

/-- The function `processExif`; `intfc` and `parseErr` are the two results of
`ParseFile`. Returns the record afterwards and the returned error. -/
def processExif (Parse : Str → Str → Time) (info : FileInfo) (intfc : Option SegmentList)
    (parseErr : Option GoError) : FileInfo × Option GoError :=
  match intfc with
  | some sl =>
    let info := if sl.segments > 0 then { info with HasExif := true } else info
    match sl.dump1.err with
    | some err =>
      match parseErr with
      | some pe => (info, some pe)
      | none => (info, some err)
    | none =>
      match sl.dump1.et with
      | none =>
        match sl.dump2.err with
        | some err => (info, some err)
        | none => (processExifTags Parse info (sl.dump2.et.getD []), none)
      | some et => (processExifTags Parse info et, none)
  | none =>
    match parseErr with
    | none => (info, some "could not parse JPEG even partially".toList)
    | some pe => (info, some pe)

/-- What the HEIC library yields for one parsed file: the error of
`mc.Exif()`, and the tags and the error of `exif.GetFlatExifData`. -/
structure HeicMedia where
  exifErr : Option GoError
  flatTags : List ExifTag
  flatErr : Option GoError
  deriving DecidableEq, Repr

/-- The function `processHeic`; `mc` and `parseErr` are the two results of
`ParseFile`. Returns the record afterwards and the returned error. -/
def processHeic (Parse : Str → Str → Time) (info : FileInfo) (mc : Option HeicMedia)
    (parseErr : Option GoError) : FileInfo × Option GoError :=
  match mc with
  | some m =>
    match m.exifErr with
    | some err => (info, some err)
    | none =>
      match m.flatErr with
      | some err => (info, some err)
      | none => (processExifTags Parse info m.flatTags, none)
  | none =>
    match parseErr with
    | none => (info, some "could not parse JPEG even partially".toList)
    | some pe => (info, some pe)

/-! ## The driver -/

/-- The variable `skipFiles`. -/
def skipFiles : List Str :=
  ["exe".toList, "bat".toList, "ini".toList, "dropbox".toList, "app".toList]

/-- The function `strings.ToLower`, over the rune mapping `unicode.ToLower`. -/
def ToLower (lower : Char → Char) (s : Str) : Str :=
  s.map lower

/-- The function `strings.TrimLeft`. -/
def TrimLeft (s cutset : Str) : Str :=
  s.dropWhile (fun c => decide (c ∈ cutset))

/-- The parts of an `os.FileInfo` directory entry read by the driver. -/
structure DirEntry where
  Name : Str
  IsDir : Bool
  IsRegular : Bool
  ModTime : Time
  deriving DecidableEq, Repr

/-- The calls with an effect outside the process made while one directory entry
is handled. -/
inductive Action where
  | timesStat (path : Str)
  | parseJpeg (path : Str)
  | parseHeic (path : Str)
  | mkdirAll (dir : Str)
  | rename (src dst : Str)
  deriving DecidableEq, Repr

/-- What `times.Stat` yields: an error, a timespec without birth time (its
`BirthTime()` panics), or a timespec with the birth time `t`. -/
inductive TimesStat where
  | failed
  | noBirthTime
  | birthTime (t : Time)
  deriving DecidableEq, Repr

/-- What the environment answers while one directory entry is handled: the
result of `times.Stat`, the results of the two parsers, the answers of
`os.Stat` before and after `MkdirAll`, and the readings of `time.Now()` during
the first `GetOutputFileName`, during `GetOutputDir` and during the second
`GetOutputFileName`. -/
structure World where
  birth : TimesStat
  jpegIntfc : Option SegmentList
  jpegErr : Option GoError
  heicMc : Option HeicMedia
  heicErr : Option GoError
  statBefore : Str → StatResult
  statAfter : Str → StatResult
  clockLog : Nat → Time
  nowMkdir : Time
  clockRename : Nat → Time

/-- How the handling of one directory entry ends: the loop body ran to its
end, a call panicked (the process dies), or a collision loop did not finish
within the fuel. The first two carry the effectful calls made, in order. -/
inductive StepResult where
  | finished (trace : List Action)
  | panicked (trace : List Action)
  | outOfFuel
  deriving DecidableEq, Repr

/-- Lines 123-127 of `main`: the value assigned to `info.CreatedAt`, `none`
when `t.BirthTime()` panics because the timespec has no birth time. -/
def createdAt (file : DirEntry) (r : TimesStat) : Option Time :=
  match r with
  | TimesStat.birthTime t => some t
  | TimesStat.noBirthTime => none
  | TimesStat.failed => some file.ModTime

/-- The record after the metadata stage of the loop body of `main` (lines
104-134), for an entry that is not skipped and whose creation time is
`created`. -/
def enrich (Parse : Str → Str → Time) (lower : Char → Char) (inputPath outputPath : Str)
    (file : DirEntry) (w : World) (created : Time) : FileInfo × List Action :=
  let info : FileInfo := { FileInfo.new with
    OriginalPath := inputPath
    NewPath := outputPath
    FileName := file.Name
    FileType := TrimLeft (ToLower lower (Ext file.Name)) ".".toList }
  let info : FileInfo := { info with CreatedAt := created }
  let trace := [Action.timesStat info.GetOriginalFilePath]
  if info.FileType = "jpeg".toList ∨ info.FileType = "jpg".toList ∨ info.FileType = "jpe".toList then
    ((processExif Parse info w.jpegIntfc w.jpegErr).1, trace ++ [Action.parseJpeg info.GetOriginalFilePath])
  else if info.FileType = "heic".toList then
    ((processHeic Parse info w.heicMc w.heicErr).1, trace ++ [Action.parseHeic info.GetOriginalFilePath])
  else (info, trace)

/-- The body of the `for _, file := range files` loop of `main` for one
entry. -/
def processEntry (Format : Time → Str → Str) (Parse : Str → Str → Time) (lower : Char → Char)
    (inputPath outputPath : Str) (file : DirEntry) (w : World) (fuel : Nat) : StepResult :=
  if file.IsDir || !file.IsRegular then StepResult.finished []
  else
    let fileType := TrimLeft (ToLower lower (Ext file.Name)) ".".toList
    if skipFiles.any (fun ext => ext == fileType) then StepResult.finished []
    else
      match createdAt file w.birth with
      | none => StepResult.panicked [Action.timesStat (inputPath ++ "/".toList ++ file.Name)]
      | some created =>
        let (info, trace) := enrich Parse lower inputPath outputPath file w created
        match info.GetOutputFileName Format w.statBefore w.clockLog fuel with
        | none => StepResult.outOfFuel
        | some _ =>
          let trace := trace ++ [Action.mkdirAll (info.GetOutputDir Format w.nowMkdir)]
          match info.GetOutputFileName Format w.statAfter w.clockRename fuel with
          | none => StepResult.outOfFuel
          | some dst => StepResult.finished (trace ++ [Action.rename info.GetOriginalFilePath dst])

/-! ## Specification-side definitions -/

/-- The first instant of a list that is not the zero instant. -/
def firstNonZero (ts : List Time) : Option Time :=
  ts.find? (fun t => !t.IsZero)

/-- The last tag of a list whose trimmed name is `name`. -/
def lastTag (name : Str) (et : List ExifTag) : Option ExifTag :=
  (et.filter (fun t => decide (TrimSpace t.TagName = name))).getLast?

/-- The closed set of tag names recognised by the tag interpreter. -/
def recognizedNames : List Str :=
  ["Make".toList, "Model".toList, "DateTimeOriginal".toList, "DateTimeDigitized".toList,
    "FileDateTime".toList]

/-- Whether the trimmed name of a tag is one of the recognised names. -/
def recognized (t : ExifTag) : Bool :=
  decide (TrimSpace t.TagName ∈ recognizedNames)

/-- Whether `ParseFile` handed back a segment list with at least one segment. -/
def hasSegments (intfc : Option SegmentList) : Bool :=
  match intfc with
  | some sl => decide (sl.segments > 0)
  | none => false

/-- Whether a path starts with `/`. -/
def isRooted (p : Str) : Bool :=
  decide (p.head? = some '/')

/-- The elements `path.Clean` keeps for the path `p`, last one first. -/
def stackOf (rooted : Bool) (p : Str) : List Str :=
  (splitSlash p).foldl (cleanStep rooted) []

/-- The path written by `path.Clean` for the kept elements. -/
def render (rooted : Bool) (stack : List Str) : Str :=
  if rooted then '/' :: joinSlash stack.reverse
  else if stack = [] then ['.']
  else joinSlash stack.reverse

/-- A proper path element: not empty, not `.`, not `..`, without `/`. -/
def Normal (c : Str) : Prop :=
  c ≠ [] ∧ c ≠ ['.'] ∧ c ≠ ['.', '.'] ∧ '/' ∉ c

/-- Every element kept on the stack is non-empty, is not `.` and has no `/`. -/
def GoodStack (s : List Str) : Prop :=
  ∀ c ∈ s, c ≠ [] ∧ c ≠ ['.'] ∧ '/' ∉ c

/-- The path tried by `GetOutputFileName` when its counter is `c`: the
un-suffixed one for 0, the one carrying `-c` before the extension otherwise;
`clock c` is the reading of the clock when that path is built. -/
def candidate (Format : Time → Str → Str) (i : FileInfo) (clock : Nat → Time) : Nat → Str
  | 0 => Clean (i.GetOutputDir Format (clock 0) ++ i.FileName)
  | c + 1 =>
    Clean (i.GetOutputDir Format (clock (c + 1)) ++ "/".toList
      ++ TrimSuffix i.FileName (Ext i.FileName) ++ "-".toList ++ Itoa (c + 1) ++ Ext i.FileName)

/-- Value of a string of decimal digits. -/
def digitsValue (s : Str) : Nat :=
  s.foldl (fun a c => a * 10 + (c.toNat - 48)) 0

/-- Pads a string of digits with zeros on the left up to `width`. -/
def padZero (width : Nat) (s : Str) : Str :=
  List.replicate (width - s.length) '0' ++ s

/-- The year, month and day of the proleptic Gregorian calendar for the day
number `days` counted from January 1 of year 1. -/
def civilFromDays (days : Int) : Int × Nat × Nat :=
  let z := days + 306
  let era := z / 146097
  let doe := z - era * 146097
  let yoe := (doe - doe / 1460 + doe / 36524 - doe / 146096) / 365
  let y := yoe + era * 400
  let doy := doe - (365 * yoe + yoe / 4 - yoe / 100)
  let mp := (5 * doy + 2) / 153
  let d := doy - (153 * mp + 2) / 5 + 1
  let m := if mp < 10 then mp + 3 else mp - 9
  (if m ≤ 2 then y + 1 else y, m.toNat, d.toNat)

/-- The year as `Format` prints it for the layout element `2006`: at least
four digits, with a minus sign for a negative year. -/
def formatYear (y : Int) : Str :=
  if y < 0 then '-' :: padZero 4 (Itoa (-y).toNat) else padZero 4 (Itoa y.toNat)

/-- The method `t.Format(layout)` for a time in the UTC location, for the two
layouts the program uses, `2006` and `2006-01-02`; other layouts are not
modelled and are returned as they are. -/
def formatUTC (t : Time) (layout : Str) : Str :=
  let (y, m, d) := civilFromDays (t.sec / 86400)
  if layout = "2006".toList then formatYear y
  else if layout = "2006-01-02".toList then
    formatYear y ++ '-' :: (padZero 2 (Itoa m) ++ '-' :: padZero 2 (Itoa d))
  else layout

/-- The path elements that the layout grammar
`<out>/[misc/<ext>/]YYYY/YYYY-MM-DD/[<camera>/]<filename>` puts after the
output root. -/
def layout (Format : Time → Str → Str) (i : FileInfo) (now : Time) : List Str :=
  (if i.HasExif then [] else ["misc".toList, i.FileType]) ++
    [Format (i.getBestDate now) "2006".toList, Format (i.getBestDate now) "2006-01-02".toList] ++
    (if i.CameraName = [] then [] else [i.CameraName]) ++ [i.FileName]

/-- The path made of a clean root followed by the elements `l`: the elements
alone under the root `.`, directly after the slash under the root `/`, after
the root and a slash otherwise. -/
def pathJoin (root : Str) (l : List Str) : Str :=
  if root = ['.'] then joinSlash l
  else if root = ['/'] then '/' :: joinSlash l
  else root ++ '/' :: joinSlash l

instance Normal.instDecidable (c : Str) : Decidable (Normal c) := by
  unfold Normal
  infer_instance

/-! ## Sample inputs -/

/-- A clock that reads one more second at every call, starting at
2024-05-05 12:00:00 UTC. -/
def sampleClock (n : Nat) : Time :=
  timeUnix (1714910400 + n)

/-- A `time.Parse` that fails on every input (the zero time is returned). -/
def parseNothing (_layout _value : Str) : Time :=
  Time.zero

/-- Scenario 1 of the specification after tag interpretation: `IMG_0001.JPG`
with Make `Canon`, Model `EOS 5D`, taken 2021-06-15 10:30:00, born
2022-01-01. -/
def sampleFullExif : FileInfo :=
  { FileInfo.new with
    FileName := "IMG_0001.JPG".toList
    FileType := "jpg".toList
    OriginalPath := "in".toList
    NewPath := "out".toList
    CreatedAt := timeUnix 1640995200
    HasExif := true
    CameraMaker := "Canon".toList
    CameraModel := "EOS 5D".toList
    TimeOriginal := timeUnix 1623753000 }

/-- A file without extension and without EXIF, modified 2020-03-04. -/
def sampleNoExtension : FileInfo :=
  { FileInfo.new with
    FileName := "README".toList
    OriginalPath := "in".toList
    NewPath := "out".toList
    CreatedAt := timeUnix 1583280000 }

/-- A JPEG whose `Make` tag is `../../..`, created 2020-03-04. -/
def sampleDotDotCamera : FileInfo :=
  { FileInfo.new with
    FileName := "a.jpg".toList
    FileType := "jpg".toList
    OriginalPath := "in".toList
    NewPath := "out".toList
    CreatedAt := timeUnix 1583280000
    HasExif := true
    CameraMaker := "../../..".toList }

/-- The record the driver builds for `notes.txt`, modified 2020-03-04. -/
def sampleNotes : FileInfo :=
  { FileInfo.new with
    FileName := "notes.txt".toList
    FileType := "txt".toList
    OriginalPath := "in".toList
    NewPath := "out".toList
    CreatedAt := timeUnix 1583280000 }

/-- A directory entry for the regular file `notes.txt`, modified 2020-03-04. -/
def sampleNotesEntry : DirEntry :=
  ⟨"notes.txt".toList, false, true, timeUnix 1583280000⟩

/-- A filesystem in which exactly the paths of `fs` exist and `os.Stat`
reports every other path as not existing. -/
def statOf (fs : List Str) (p : Str) : StatResult :=
  if p ∈ fs then StatResult.found else StatResult.notExist

/-- A filesystem in which the directories `dirs` and the regular file `file`
exist and nothing else: `os.Stat` fails with "not a directory" on every path
below `file` and reports every other path as not existing. -/
def statBlocked (dirs : List Str) (file : Str) (p : Str) : StatResult :=
  if p ∈ dirs ∨ p = file then StatResult.found
  else if (file ++ ['/']).isPrefixOf p then StatResult.failed
  else StatResult.notExist

/-- An environment in which `times.Stat` fails, the parsers fail, no path
exists and the clock is `sampleClock`. -/
def sampleWorld : World :=
  { birth := TimesStat.failed
    jpegIntfc := none
    jpegErr := some "bad".toList
    heicMc := none
    heicErr := some "bad".toList
    statBefore := statOf []
    statAfter := statOf []
    clockLog := sampleClock
    nowMkdir := sampleClock 0
    clockRename := sampleClock }

/-! ## Theorems -/

theorem getBestDate_eq_firstNonZero (i : FileInfo) (now : Time) :
    i.getBestDate now = (firstNonZero [i.TimeOriginal, i.TimeDigitized, i.CreatedAt]).getD now := by
  unfold FileInfo.getBestDate firstNonZero
  cases h1 : i.TimeOriginal.IsZero <;> cases h2 : i.TimeDigitized.IsZero <;>
    cases h3 : i.CreatedAt.IsZero <;> simp [List.find?, h1, h2, h3]

/-- C1. `getBestDate` returns the first non-zero instant among timeOriginal,
timeDigitized and fsCreatedAt, in this order, and the reading of the clock
exactly when all three are the zero instant. -/
theorem getBestDate_spec (i : FileInfo) (now : Time) :
    i.getBestDate now = (firstNonZero [i.TimeOriginal, i.TimeDigitized, i.CreatedAt]).getD now ∧
    ((firstNonZero [i.TimeOriginal, i.TimeDigitized, i.CreatedAt]).isNone = true ↔
      (i.TimeOriginal.IsZero = true ∧ i.TimeDigitized.IsZero = true ∧
        i.CreatedAt.IsZero = true)) := by
  refine ⟨getBestDate_eq_firstNonZero i now, ?_⟩
  unfold firstNonZero
  cases h1 : i.TimeOriginal.IsZero <;> cases h2 : i.TimeDigitized.IsZero <;>
    cases h3 : i.CreatedAt.IsZero <;> simp [List.find?, h1, h2, h3]

/-- C7 (amended). On a record whose timeOriginal, timeDigitized and fsCreatedAt
are all zero, each query of the date resolver returns the reading of the clock
at that query, so two queries agree exactly when the two readings agree. -/
theorem getBestDate_fallback (i : FileInfo) (h1 : i.TimeOriginal.IsZero = true)
    (h2 : i.TimeDigitized.IsZero = true) (h3 : i.CreatedAt.IsZero = true) (now1 now2 : Time) :
    i.getBestDate now1 = now1 ∧ (i.getBestDate now1 = i.getBestDate now2 ↔ now1 = now2) := by
  simp [FileInfo.getBestDate, h1, h2, h3]

/-- Witness of `getBestDate_fallback` on the fresh record. -/
theorem getBestDate_fallback_witness :
    (FileInfo.new.getBestDate ⟨5, 0⟩ = ⟨5, 0⟩ ∧
      (FileInfo.new.getBestDate ⟨5, 0⟩ = FileInfo.new.getBestDate ⟨6, 0⟩ ↔
        (⟨5, 0⟩ : Time) = ⟨6, 0⟩)) :=
  getBestDate_fallback FileInfo.new (by decide) (by decide) (by decide) ⟨5, 0⟩ ⟨6, 0⟩

/-- C7 (counterexample). Two queries on the fresh record, one second apart
around midnight, return different instants, and the destination directory
computed from them differs: the fallback is read again at every query. -/
theorem getBestDate_not_sampled_once :
    ∃ (i : FileInfo) (now1 now2 : Time),
      i.TimeOriginal.IsZero = true ∧ i.TimeDigitized.IsZero = true ∧ i.CreatedAt.IsZero = true ∧
        i.getBestDate now1 ≠ i.getBestDate now2 ∧
        i.GetOutputDir formatUTC now1 = "/misc//2024/2024-05-05/".toList ∧
        i.GetOutputDir formatUTC now2 = "/misc//2024/2024-05-06/".toList :=
  ⟨FileInfo.new, timeUnix 1714953599, timeUnix 1714953600, by decide⟩

section TagLemmas

variable (Parse : Str → Str → Time)

theorem tagStep_unrecognized (info : FileInfo) (t : ExifTag) (h : recognized t = false) :
    tagStep Parse info t = info := by
  simp only [recognized, recognizedNames, List.mem_cons, List.mem_singleton, decide_eq_false_iff_not,
    not_or, List.not_mem_nil, or_false] at h
  obtain ⟨h1, h2, h3, h4, h5⟩ := h
  simp only [tagStep, if_neg h1, if_neg h2, if_neg h3, if_neg h4, if_neg h5]

theorem foldl_tagStep_filter (et : List ExifTag) (info : FileInfo) :
    et.foldl (tagStep Parse) info = (et.filter recognized).foldl (tagStep Parse) info := by
  induction et generalizing info with
  | nil => rfl
  | cons t ts ih =>
    cases h : recognized t
    · simp [List.filter, h, tagStep_unrecognized Parse info t h, ih]
    · simp [List.filter, h, ih]

theorem lastTag_concat (name : Str) (et : List ExifTag) (t : ExifTag) :
    lastTag name (et ++ [t]) = if TrimSpace t.TagName = name then some t else lastTag name et := by
  unfold lastTag
  by_cases h : TrimSpace t.TagName = name
  · simp [List.filter_append, List.filter, h]
  · simp [List.filter_append, List.filter, h]

theorem foldl_tagStep_fields (et : List ExifTag) (info : FileInfo) :
    let r := et.foldl (tagStep Parse) info
    r.CameraMaker = ((lastTag "Make".toList et).map (fun t => t.FormattedFirst)).getD info.CameraMaker ∧
    r.CameraModel = ((lastTag "Model".toList et).map (fun t => t.FormattedFirst)).getD info.CameraModel ∧
    r.TimeOriginal = ((lastTag "DateTimeOriginal".toList et).map
      (fun t => Parse "2006:01:02 15:04:05".toList t.FormattedFirst)).getD info.TimeOriginal ∧
    r.TimeDigitized = ((lastTag "DateTimeDigitized".toList et).map
      (fun t => Parse "2006:01:02 15:04:05".toList t.FormattedFirst)).getD info.TimeDigitized ∧
    r.FileDateTime = ((lastTag "FileDateTime".toList et).map
      (fun t => timeUnix (Atoi t.FormattedFirst))).getD info.FileDateTime ∧
    r.HasExif = info.HasExif ∧ r.FileName = info.FileName ∧ r.FileType = info.FileType ∧
    r.OriginalPath = info.OriginalPath ∧ r.NewPath = info.NewPath ∧ r.CreatedAt = info.CreatedAt := by
  induction et using List.reverseRecOn with
  | nil => simp [lastTag]
  | append_singleton ts t ih =>
    simp only [List.foldl_append, List.foldl_cons, List.foldl_nil, lastTag_concat]
    obtain ⟨h1, h2, h3, h4, h5, h6, h7, h8, h9, h10, h11⟩ := ih
    by_cases e1 : TrimSpace t.TagName = "Make".toList
    · have e2 : ¬ TrimSpace t.TagName = "Model".toList := by rw [e1]; decide
      have e3 : ¬ TrimSpace t.TagName = "DateTimeOriginal".toList := by rw [e1]; decide
      have e4 : ¬ TrimSpace t.TagName = "DateTimeDigitized".toList := by rw [e1]; decide
      have e5 : ¬ TrimSpace t.TagName = "FileDateTime".toList := by rw [e1]; decide
      simp only [tagStep, if_pos e1, if_neg e2, if_neg e3, if_neg e4, if_neg e5, Option.map_some',
        Option.getD_some]
      exact ⟨trivial, h2, h3, h4, h5, h6, h7, h8, h9, h10, h11⟩
    by_cases e2 : TrimSpace t.TagName = "Model".toList
    · have e3 : ¬ TrimSpace t.TagName = "DateTimeOriginal".toList := by rw [e2]; decide
      have e4 : ¬ TrimSpace t.TagName = "DateTimeDigitized".toList := by rw [e2]; decide
      have e5 : ¬ TrimSpace t.TagName = "FileDateTime".toList := by rw [e2]; decide
      simp only [tagStep, if_neg e1, if_pos e2, if_neg e3, if_neg e4, if_neg e5, Option.map_some',
        Option.getD_some]
      exact ⟨h1, trivial, h3, h4, h5, h6, h7, h8, h9, h10, h11⟩
    by_cases e3 : TrimSpace t.TagName = "DateTimeOriginal".toList
    · have e4 : ¬ TrimSpace t.TagName = "DateTimeDigitized".toList := by rw [e3]; decide
      have e5 : ¬ TrimSpace t.TagName = "FileDateTime".toList := by rw [e3]; decide
      simp only [tagStep, if_neg e1, if_neg e2, if_pos e3, if_neg e4, if_neg e5, Option.map_some',
        Option.getD_some]
      exact ⟨h1, h2, trivial, h4, h5, h6, h7, h8, h9, h10, h11⟩
    by_cases e4 : TrimSpace t.TagName = "DateTimeDigitized".toList
    · have e5 : ¬ TrimSpace t.TagName = "FileDateTime".toList := by rw [e4]; decide
      simp only [tagStep, if_neg e1, if_neg e2, if_neg e3, if_pos e4, if_neg e5, Option.map_some',
        Option.getD_some]
      exact ⟨h1, h2, h3, trivial, h5, h6, h7, h8, h9, h10, h11⟩
    by_cases e5 : TrimSpace t.TagName = "FileDateTime".toList
    · simp only [tagStep, if_neg e1, if_neg e2, if_neg e3, if_neg e4, if_pos e5, Option.map_some',
        Option.getD_some]
      exact ⟨h1, h2, h3, h4, trivial, h6, h7, h8, h9, h10, h11⟩
    simp only [tagStep, if_neg e1, if_neg e2, if_neg e3, if_neg e4, if_neg e5]
    exact ⟨h1, h2, h3, h4, h5, h6, h7, h8, h9, h10, h11⟩

end TagLemmas

/-- The five interpreted fields after `processExifTags` on a non-empty list. -/
theorem processExifTags_fields (Parse : Str → Str → Time) (info : FileInfo)
    (et : List ExifTag) (hne : et ≠ []) :
    (processExifTags Parse info et).CameraMaker =
      ((lastTag "Make".toList et).map (fun t => t.FormattedFirst)).getD info.CameraMaker ∧
    (processExifTags Parse info et).CameraModel =
      ((lastTag "Model".toList et).map (fun t => t.FormattedFirst)).getD info.CameraModel ∧
    (processExifTags Parse info et).TimeOriginal = ((lastTag "DateTimeOriginal".toList et).map
      (fun t => Parse "2006:01:02 15:04:05".toList t.FormattedFirst)).getD info.TimeOriginal ∧
    (processExifTags Parse info et).TimeDigitized = ((lastTag "DateTimeDigitized".toList et).map
      (fun t => Parse "2006:01:02 15:04:05".toList t.FormattedFirst)).getD info.TimeDigitized ∧
    (processExifTags Parse info et).FileDateTime = ((lastTag "FileDateTime".toList et).map
      (fun t => timeUnix (Atoi t.FormattedFirst))).getD info.FileDateTime := by
  have hlen : ¬ et.length = 0 := by simpa using hne
  have h := foldl_tagStep_fields Parse et { info with HasExif := true }
  simp only [processExifTags, hlen, if_false]
  exact ⟨h.1, h.2.1, h.2.2.1, h.2.2.2.1, h.2.2.2.2.1⟩

theorem processExifTags_hasExif (Parse : Str → Str → Time) (info : FileInfo)
    (et : List ExifTag) (hne : et ≠ []) : (processExifTags Parse info et).HasExif = true := by
  have hlen : ¬ et.length = 0 := by simpa using hne
  have h := foldl_tagStep_fields Parse et { info with HasExif := true }
  simp only [processExifTags, hlen, if_false]
  exact h.2.2.2.2.2.1

/-- C9. For a non-empty tag list, `processExifTags` sets each of cameraMaker,
cameraModel, timeOriginal, timeDigitized and fileDateTime from the last tag
whose trimmed name is Make, Model, DateTimeOriginal, DateTimeDigitized or
FileDateTime respectively, and keeps the prior value when there is no such tag.
A second tag list that differs only by tags with other trimmed names yields the
same record when it is non-empty too, and a record that differs at most in
hasExif when it is empty. -/
theorem processExifTags_last_writer_wins (Parse : Str → Str → Time) (info : FileInfo)
    (et : List ExifTag) (hne : et ≠ []) :
    ((processExifTags Parse info et).CameraMaker =
      ((lastTag "Make".toList et).map (fun t => t.FormattedFirst)).getD info.CameraMaker ∧
    (processExifTags Parse info et).CameraModel =
      ((lastTag "Model".toList et).map (fun t => t.FormattedFirst)).getD info.CameraModel ∧
    (processExifTags Parse info et).TimeOriginal = ((lastTag "DateTimeOriginal".toList et).map
      (fun t => Parse "2006:01:02 15:04:05".toList t.FormattedFirst)).getD info.TimeOriginal ∧
    (processExifTags Parse info et).TimeDigitized = ((lastTag "DateTimeDigitized".toList et).map
      (fun t => Parse "2006:01:02 15:04:05".toList t.FormattedFirst)).getD info.TimeDigitized ∧
    (processExifTags Parse info et).FileDateTime = ((lastTag "FileDateTime".toList et).map
      (fun t => timeUnix (Atoi t.FormattedFirst))).getD info.FileDateTime) ∧
    ∀ et2 : List ExifTag, et2.filter recognized = et.filter recognized →
      (et2 ≠ [] → processExifTags Parse info et2 = processExifTags Parse info et) ∧
      { processExifTags Parse info et2 with HasExif := true } = processExifTags Parse info et := by
  refine ⟨processExifTags_fields Parse info et hne, ?_⟩
  intro et2 hf
  have hlen : ¬ et.length = 0 := by simpa using hne
  have hsame : et2 ≠ [] → processExifTags Parse info et2 = processExifTags Parse info et := by
    intro hne2
    have hlen2 : ¬ et2.length = 0 := by simpa using hne2
    simp only [processExifTags, hlen, hlen2, if_false]
    rw [foldl_tagStep_filter Parse et2, foldl_tagStep_filter Parse et, hf]
  refine ⟨hsame, ?_⟩
  by_cases hne2 : et2 = []
  · subst hne2
    simp only [processExifTags, hlen, if_false, List.length_nil, if_true]
    rw [foldl_tagStep_filter Parse et, ← hf]
    rfl
  · rw [hsame hne2]
    have hx := processExifTags_hasExif Parse info et hne
    generalize processExifTags Parse info et = r at hx
    cases r
    simp only at hx
    simp [hx]

/-- Witness of `processExifTags_last_writer_wins`: a list with a `Make` tag
between two unrecognised tags. -/
theorem processExifTags_last_writer_wins_witness :
    ([⟨"Foo".toList, "1".toList⟩, ⟨" Make ".toList, "Canon".toList⟩] : List ExifTag) ≠ [] ∧
    (processExifTags parseNothing FileInfo.new
      [⟨"Foo".toList, "1".toList⟩, ⟨" Make ".toList, "Canon".toList⟩]).CameraMaker
        = "Canon".toList ∧
    processExifTags parseNothing FileInfo.new
      [⟨" Make ".toList, "Canon".toList⟩, ⟨"Bar".toList, "2".toList⟩] =
    processExifTags parseNothing FileInfo.new
      [⟨"Foo".toList, "1".toList⟩, ⟨" Make ".toList, "Canon".toList⟩] :=
  ⟨by decide,
    (processExifTags_last_writer_wins parseNothing FileInfo.new
      [⟨"Foo".toList, "1".toList⟩, ⟨" Make ".toList, "Canon".toList⟩] (by decide)).1.1.trans
        (by decide),
    ((processExifTags_last_writer_wins parseNothing FileInfo.new
      [⟨"Foo".toList, "1".toList⟩, ⟨" Make ".toList, "Canon".toList⟩] (by decide)).2
        [⟨" Make ".toList, "Canon".toList⟩, ⟨"Bar".toList, "2".toList⟩] (by decide)).1
          (by decide)⟩

/-- C8 (what the code does). The tag `FileDateTime = "abc"` on a fresh record
leaves fileDateTime at `time.Unix(0, 0)`, the first second of 1970, and a
value whose digits overflow before the bad character leaves it at
`time.Unix(MaxInt64, 0)`; neither is the zero instant. -/
theorem processExifTags_fileDateTime_not_zero :
    (processExifTags parseNothing FileInfo.new
      [⟨"FileDateTime".toList, "abc".toList⟩]).FileDateTime = timeUnix 0 ∧
    (processExifTags parseNothing FileInfo.new
      [⟨"FileDateTime".toList, "abc".toList⟩]).FileDateTime.IsZero = false ∧
    (processExifTags parseNothing FileInfo.new
      [⟨"FileDateTime".toList, "99999999999999999999x".toList⟩]).FileDateTime
        = timeUnix (2 ^ 63 - 1) ∧
    (processExifTags parseNothing FileInfo.new
      [⟨"FileDateTime".toList, "99999999999999999999x".toList⟩]).FileDateTime.IsZero = false := by
  decide

theorem processExif_error_frame (Parse : Str → Str → Time) (info : FileInfo)
    (intfc : Option SegmentList) (parseErr : Option GoError)
    (herr : (processExif Parse info intfc parseErr).2 ≠ none) :
    (processExif Parse info intfc parseErr).1 =
      { info with HasExif := info.HasExif || hasSegments intfc } := by
  unfold processExif at herr ⊢
  cases intfc with
  | none => cases parseErr <;> simp [hasSegments]
  | some sl =>
    have hinfo : (if sl.segments > 0 then { info with HasExif := true } else info) =
        { info with HasExif := info.HasExif || hasSegments (some sl) } := by
      by_cases hs : sl.segments > 0
      · simp [hasSegments, hs]
      · simp [hasSegments, hs]
    simp only [hinfo] at herr ⊢
    cases h1 : sl.dump1.err with
    | some e => cases parseErr <;> simp
    | none =>
      simp only [h1] at herr
      cases h2 : sl.dump1.et with
      | some et => simp [h2] at herr
      | none =>
        simp only [h2] at herr
        cases h3 : sl.dump2.err with
        | some e => simp
        | none => simp [h3] at herr

/-! ### `TrimSpace` and `CameraName` -/

theorem TrimSpace_head (s : Str) (c : Char) (h : (TrimSpace s).head? = some c) :
    isSpace c = false := by
  unfold TrimSpace at h
  obtain ⟨t, ht⟩ := List.rdropWhile_prefix isSpace (l := s.dropWhile isSpace)
  have h2 := List.head?_dropWhile_not isSpace s
  cases hr : List.rdropWhile isSpace (s.dropWhile isSpace) with
  | nil => simp [hr] at h
  | cons x xs =>
    rw [hr] at h ht
    simp only [List.head?_cons, Option.some.injEq] at h
    rw [← ht] at h2
    simpa [h] using h2

theorem TrimSpace_getLast (s : Str) (c : Char) (h : (TrimSpace s).getLast? = some c) :
    isSpace c = false := by
  unfold TrimSpace at h
  have hne : List.rdropWhile isSpace (s.dropWhile isSpace) ≠ [] := by
    intro h0
    simp [h0] at h
  have h2 := List.rdropWhile_last_not isSpace (s.dropWhile isSpace) hne
  rw [List.getLast?_eq_getLast _ hne] at h
  simp only [Option.some.injEq] at h
  rw [h] at h2
  simpa using h2

theorem TrimSpace_fix (s : Str) (hh : ∀ c, s.head? = some c → isSpace c = false)
    (hl : ∀ c, s.getLast? = some c → isSpace c = false) : TrimSpace s = s := by
  have h1 : s.dropWhile isSpace = s := by
    cases s with
    | nil => rfl
    | cons c t => simp [List.dropWhile, hh c rfl]
  unfold TrimSpace
  rw [h1, List.rdropWhile_eq_self_iff]
  intro hne
  have := hl _ (List.getLast?_eq_getLast _ hne)
  simp [this]

theorem TrimSpace_idem (s : Str) : TrimSpace (TrimSpace s) = TrimSpace s :=
  TrimSpace_fix _ (TrimSpace_head s) (TrimSpace_getLast s)

theorem TrimSpace_space_cons (s : Str) : TrimSpace (' ' :: s) = TrimSpace s := by
  have : isSpace ' ' = true := by decide
  simp [TrimSpace, List.dropWhile, this]

theorem TrimSpace_concat_space (m : Str) (hh : ∀ c, m.head? = some c → isSpace c = false)
    (hl : ∀ c, m.getLast? = some c → isSpace c = false) : TrimSpace (m ++ [' ']) = m := by
  have hsp : isSpace ' ' = true := by decide
  cases m with
  | nil => simp [TrimSpace, List.dropWhile, hsp]
  | cons c t =>
    have h1 : (c :: t ++ [' ']).dropWhile isSpace = (c :: t) ++ [' '] := by
      simp [List.dropWhile, hh c rfl]
    unfold TrimSpace
    rw [h1, List.rdropWhile_concat_pos _ _ _ hsp, List.rdropWhile_eq_self_iff]
    intro hne
    have := hl _ (List.getLast?_eq_getLast _ hne)
    simp [this]

theorem TrimSpace_join (m d : Str) (hm : m ≠ []) (hd : d ≠ [])
    (hh : ∀ c, m.head? = some c → isSpace c = false)
    (hl : ∀ c, d.getLast? = some c → isSpace c = false) :
    TrimSpace (m ++ [' '] ++ d) = m ++ [' '] ++ d := by
  apply TrimSpace_fix
  · intro c hc
    cases m with
    | nil => exact absurd rfl hm
    | cons x xs => exact hh c (by simpa using hc)
  · intro c hc
    apply hl c
    rw [List.getLast?_append_of_ne_nil _ hd] at hc
    exact hc

theorem CameraName_eq (i : FileInfo) :
    i.CameraName =
      if TrimSpace i.CameraMaker = [] then TrimSpace i.CameraModel
      else if TrimSpace i.CameraModel = [] then TrimSpace i.CameraMaker
      else TrimSpace i.CameraMaker ++ [' '] ++ TrimSpace i.CameraModel := by
  unfold FileInfo.CameraName
  have hT : TrimSpace [] = [] := rfl
  by_cases hk : i.CameraMaker = [] <;> by_cases hd : i.CameraModel = []
  · simp [hk, hd, hT]
  · simp [hk, hd, hT, TrimSpace_idem]
  · simp only [hk, hd, ne_eq, not_false_eq_true, not_true_eq_false, if_true, if_false,
      List.nil_append, hT]
    rw [TrimSpace_concat_space _ (TrimSpace_head _) (TrimSpace_getLast _)]
    by_cases hm : TrimSpace i.CameraMaker = []
    · simp [hm]
    · simp [hm]
  · simp only [hk, hd, ne_eq, not_false_eq_true, if_true, List.nil_append]
    by_cases hm : TrimSpace i.CameraMaker = []
    · simp only [hm, List.nil_append, if_true]
      show TrimSpace (' ' :: TrimSpace i.CameraModel) = _
      rw [TrimSpace_space_cons, TrimSpace_idem]
    · by_cases hm2 : TrimSpace i.CameraModel = []
      · simp only [hm, hm2, if_false, if_true, List.append_nil]
        exact TrimSpace_concat_space _ (TrimSpace_head _) (TrimSpace_getLast _)
      · simp only [hm, hm2, if_false]
        exact TrimSpace_join _ _ hm hm2 (TrimSpace_head _) (TrimSpace_getLast _)

/-- C4. `CameraName` is empty when maker and model are both empty after
trimming, is the trimmed maker, one space and the trimmed model when both are
non-empty after trimming, and is the trimmed non-empty one otherwise; it never
starts or ends with white space; and when it is empty `GetOutputDir` adds no
camera segment after the date segment. -/
theorem CameraName_spec (i : FileInfo) :
    (i.CameraName =
      if TrimSpace i.CameraMaker = [] then TrimSpace i.CameraModel
      else if TrimSpace i.CameraModel = [] then TrimSpace i.CameraMaker
      else TrimSpace i.CameraMaker ++ [' '] ++ TrimSpace i.CameraModel) ∧
    (∀ c, i.CameraName.head? = some c → isSpace c = false) ∧
    (∀ c, i.CameraName.getLast? = some c → isSpace c = false) ∧
    (∀ (Format : Time → Str → Str) (now : Time),
      TrimSpace i.CameraMaker = [] → TrimSpace i.CameraModel = [] →
        i.CameraName = [] ∧
        i.GetOutputDir Format now =
          i.NewPath ++ "/".toList ++
            (if i.HasExif then [] else "misc/".toList ++ i.FileType ++ "/".toList) ++
            (i.getDateDirName Format now ++ "/".toList)) := by
  refine ⟨CameraName_eq i, ?_, ?_, ?_⟩
  · intro c hc
    unfold FileInfo.CameraName at hc
    exact TrimSpace_head _ c hc
  · intro c hc
    unfold FileInfo.CameraName at hc
    exact TrimSpace_getLast _ c hc
  · intro Format now hm hd
    have hc : i.CameraName = [] := by rw [CameraName_eq, hm, hd]; rfl
    refine ⟨hc, ?_⟩
    unfold FileInfo.GetOutputDir
    cases hx : i.HasExif <;> simp [hc]

theorem processHeic_error_frame (Parse : Str → Str → Time) (info : FileInfo)
    (mc : Option HeicMedia) (parseErr : Option GoError)
    (herr : (processHeic Parse info mc parseErr).2 ≠ none) :
    (processHeic Parse info mc parseErr).1 = info := by
  unfold processHeic at herr ⊢
  cases mc with
  | none => cases parseErr <;> simp
  | some m =>
    cases h1 : m.exifErr with
    | some e => simp [h1]
    | none =>
      simp only [h1] at herr
      cases h2 : m.flatErr with
      | some e => simp [h1, h2]
      | none => simp [h2] at herr

/-- C5 (amended). When `processExif` or `processHeic` returns an error, the
camera and time fields of the record are what they were before the call (unset
on a fresh record). `processHeic` also leaves hasExif as it was; `processExif`
leaves hasExif true when the parser handed back a segment list with at least
one segment, and as it was otherwise. -/
theorem extractor_error_record (Parse : Str → Str → Time) (info : FileInfo)
    (intfc : Option SegmentList) (jpegErr : Option GoError)
    (mc : Option HeicMedia) (heicErr : Option GoError) :
    ((processExif Parse info intfc jpegErr).2 ≠ none →
      (processExif Parse info intfc jpegErr).1 =
        { info with HasExif := info.HasExif || hasSegments intfc }) ∧
    ((processHeic Parse info mc heicErr).2 ≠ none →
      (processHeic Parse info mc heicErr).1 = info) :=
  ⟨processExif_error_frame Parse info intfc jpegErr,
    processHeic_error_frame Parse info mc heicErr⟩

/-- Witness of `extractor_error_record`: a JPEG and a HEIC file for which the
parser returns only an error leave the fresh record untouched. -/
theorem extractor_error_record_witness :
    (processExif parseNothing FileInfo.new none (some "bad".toList)).1 = FileInfo.new ∧
    (processHeic parseNothing FileInfo.new none (some "bad".toList)).1 = FileInfo.new :=
  ⟨(extractor_error_record parseNothing FileInfo.new none (some "bad".toList)
      none (some "bad".toList)).1 (by decide),
    (extractor_error_record parseNothing FileInfo.new none (some "bad".toList)
      none (some "bad".toList)).2 (by decide)⟩

/-- C5 (counterexample). A JPEG that parses into one segment and carries no
EXIF makes `processExif` return the error of `DumpExif` with hasExif already
set to true on the record. -/
theorem processExif_error_hasExif :
    (processExif parseNothing FileInfo.new
        (some ⟨1, ⟨none, some "no exif data".toList⟩, ⟨none, none⟩⟩) none).2
      = some "no exif data".toList ∧
    (processExif parseNothing FileInfo.new
        (some ⟨1, ⟨none, some "no exif data".toList⟩, ⟨none, none⟩⟩) none).1.HasExif = true := by
  decide

/-! ### Path elements -/

theorem splitSlash_ne_nil (s : Str) : splitSlash s ≠ [] := by
  cases s with
  | nil => simp [splitSlash]
  | cons c cs =>
    unfold splitSlash
    by_cases h : c = '/'
    · simp [h]
    · simp only [h, if_false]
      cases splitSlash cs <;> simp

theorem splitSlash_cons_of_ne (c : Char) (cs : Str) (h : c ≠ '/') :
    ∃ hd tl, splitSlash cs = hd :: tl ∧ splitSlash (c :: cs) = (c :: hd) :: tl := by
  cases hs : splitSlash cs with
  | nil => exact absurd hs (splitSlash_ne_nil cs)
  | cons hd tl =>
    refine ⟨hd, tl, rfl, ?_⟩
    rw [splitSlash]
    simp [h, hs]

theorem splitSlash_append_slash (a b : Str) :
    splitSlash (a ++ '/' :: b) = splitSlash a ++ splitSlash b := by
  induction a with
  | nil => simp [splitSlash]
  | cons c cs ih =>
    by_cases h : c = '/'
    · subst h
      simp [splitSlash, ih]
    · obtain ⟨hd, tl, h1, h2⟩ := splitSlash_cons_of_ne c cs h
      obtain ⟨hd2, tl2, h3, h4⟩ := splitSlash_cons_of_ne c (cs ++ '/' :: b) h
      rw [List.cons_append, h4, h2]
      rw [ih, h1] at h3
      simp only [List.cons_append, List.cons.injEq] at h3
      simp [h3.1, h3.2]

theorem splitSlash_of_not_mem (w : Str) (h : '/' ∉ w) : splitSlash w = [w] := by
  induction w with
  | nil => rfl
  | cons c cs ih =>
    have hc : c ≠ '/' := fun e => h (by simp [e])
    have hcs : '/' ∉ cs := fun e => h (by simp [e])
    obtain ⟨hd, tl, h1, h2⟩ := splitSlash_cons_of_ne c cs hc
    rw [ih hcs] at h1
    simp only [List.cons.injEq] at h1
    rw [h2, ← h1.1, ← h1.2]

theorem splitSlash_not_mem (s : Str) : ∀ c ∈ splitSlash s, '/' ∉ c := by
  induction s with
  | nil => simp [splitSlash]
  | cons x xs ih =>
    by_cases h : x = '/'
    · subst h
      intro c hc
      simp only [splitSlash, if_true, List.mem_cons] at hc
      rcases hc with rfl | hc
      · simp
      · exact ih c hc
    · obtain ⟨hd, tl, h1, h2⟩ := splitSlash_cons_of_ne x xs h
      rw [h2]
      rw [h1] at ih
      intro c hc
      simp only [List.mem_cons] at hc
      rcases hc with rfl | hc
      · have := ih hd (by simp)
        simp only [List.mem_cons, not_or]
        exact ⟨fun e => h e.symm, this⟩
      · exact ih c (by simp [hc])

theorem joinSlash_cons_cons (a b : Str) (l : List Str) :
    joinSlash (a :: b :: l) = a ++ '/' :: joinSlash (b :: l) := rfl

theorem joinSlash_append (l1 l2 : List Str) (h1 : l1 ≠ []) (h2 : l2 ≠ []) :
    joinSlash (l1 ++ l2) = joinSlash l1 ++ '/' :: joinSlash l2 := by
  induction l1 with
  | nil => exact absurd rfl h1
  | cons a t ih =>
    cases t with
    | nil =>
      cases l2 with
      | nil => exact absurd rfl h2
      | cons b l => simp [joinSlash]
    | cons b t2 =>
      have := ih (by simp)
      rw [List.cons_append, List.cons_append, joinSlash_cons_cons, ← List.cons_append, this,
        joinSlash_cons_cons]
      simp

theorem splitSlash_joinSlash (l : List Str) (hne : l ≠ []) (h : ∀ c ∈ l, '/' ∉ c) :
    splitSlash (joinSlash l) = l := by
  induction l with
  | nil => exact absurd rfl hne
  | cons a t ih =>
    cases t with
    | nil => simpa [joinSlash] using splitSlash_of_not_mem a (h a (by simp))
    | cons b t2 =>
      rw [joinSlash_cons_cons, splitSlash_append_slash, ih (by simp) (fun c hc => h c (by simp [hc])),
        splitSlash_of_not_mem a (h a (by simp))]
      rfl

theorem exists_last_slash (s : Str) (h : '/' ∈ s) :
    ∃ a t, s = a ++ '/' :: t ∧ '/' ∉ t := by
  induction s with
  | nil => simp at h
  | cons c cs ih =>
    by_cases hcs : '/' ∈ cs
    · obtain ⟨a, t, e, ht⟩ := ih hcs
      exact ⟨c :: a, t, by simp [e], ht⟩
    · have hc : c = '/' := by
        simp only [List.mem_cons] at h
        rcases h with h | h
        · exact h.symm
        · exact absurd h hcs
      exact ⟨[], cs, by simp [hc], hcs⟩

/-! ### `path.Clean` -/

theorem Clean_eq_render (p : Str) (h : p ≠ []) :
    Clean p = render (isRooted p) (stackOf (isRooted p) p) := by
  unfold Clean render stackOf isRooted
  simp only [h, if_false]
  by_cases hr : p.head? = some '/' <;> simp [hr]

theorem cleanStep_normal (r : Bool) (s : List Str) (c : Str) (h : Normal c) :
    cleanStep r s c = c :: s := by
  obtain ⟨h1, h2, h3, _⟩ := h
  simp [cleanStep, h1, h2, h3]

theorem cleanStep_nil (r : Bool) (s : List Str) : cleanStep r s [] = s := by
  simp [cleanStep]

theorem foldl_cleanStep_normal (r : Bool) (cs : List Str) (s : List Str)
    (h : ∀ c ∈ cs, Normal c) : cs.foldl (cleanStep r) s = cs.reverse ++ s := by
  induction cs generalizing s with
  | nil => rfl
  | cons c t ih =>
    rw [List.foldl_cons, cleanStep_normal r s c (h c (by simp)),
      ih _ (fun x hx => h x (by simp [hx]))]
    simp

theorem cleanStep_good (r : Bool) (s : List Str) (c : Str) (hs : GoodStack s) (hc : '/' ∉ c) :
    GoodStack (cleanStep r s c) := by
  unfold cleanStep
  by_cases h1 : c = [] ∨ c = ['.']
  · simpa [h1] using hs
  · simp only [h1, if_false]
    have h1a : c ≠ [] := fun e => h1 (Or.inl e)
    have h1b : c ≠ ['.'] := fun e => h1 (Or.inr e)
    by_cases h2 : c = ['.', '.']
    · simp only [h2, if_true]
      have hdd : ([ '.', '.' ] : Str) ≠ [] ∧ ([ '.', '.' ] : Str) ≠ ['.'] ∧
          '/' ∉ ([ '.', '.' ] : Str) := by decide
      cases s with
      | nil =>
        cases r
        · intro x hx
          simp only [Bool.false_eq_true, if_false, List.mem_singleton] at hx
          rw [hx]; exact hdd
        · intro x hx
          simp at hx
      | cons top rest =>
        by_cases h3 : top = ['.', '.']
        · simp only [h3, if_true]
          intro x hx
          simp only [List.mem_cons] at hx
          rcases hx with rfl | hx
          · exact hdd
          · exact hs x (by simp only [h3, List.mem_cons]; exact hx)
        · simp only [h3, if_false]
          intro x hx
          exact hs x (by simp [hx])
    · simp only [h2, if_false]
      intro x hx
      simp only [List.mem_cons] at hx
      rcases hx with rfl | hx
      · exact ⟨h1a, h1b, hc⟩
      · exact hs x hx

theorem foldl_cleanStep_good (r : Bool) (cs : List Str) (s : List Str) (hs : GoodStack s)
    (h : ∀ c ∈ cs, '/' ∉ c) : GoodStack (cs.foldl (cleanStep r) s) := by
  induction cs generalizing s with
  | nil => exact hs
  | cons c t ih =>
    rw [List.foldl_cons]
    exact ih _ (cleanStep_good r s c hs (h c (by simp))) (fun x hx => h x (by simp [hx]))

theorem stackOf_good (r : Bool) (p : Str) : GoodStack (stackOf r p) :=
  foldl_cleanStep_good r _ [] (fun _ hc => by simp at hc) (splitSlash_not_mem p)

theorem stackOf_append_slash (r : Bool) (a w : Str) (hw : '/' ∉ w) :
    stackOf r (a ++ '/' :: w) = cleanStep r (stackOf r a) w := by
  unfold stackOf
  rw [splitSlash_append_slash, splitSlash_of_not_mem w hw, List.foldl_append]
  rfl

theorem stackOf_double_slash (r : Bool) (x y : Str) :
    stackOf r (x ++ '/' :: '/' :: y) = stackOf r (x ++ '/' :: y) := by
  unfold stackOf
  rw [splitSlash_append_slash, splitSlash_append_slash, List.foldl_append, List.foldl_append]
  have : splitSlash ('/' :: y) = [] :: splitSlash y := by simp [splitSlash]
  rw [this, List.foldl_cons, cleanStep_nil]

theorem isRooted_append (x y z : Str) (h : x ≠ []) : isRooted (x ++ y) = isRooted (x ++ z) := by
  cases x with
  | nil => exact absurd rfl h
  | cons c t => simp [isRooted]

theorem Clean_double_slash (x y : Str) :
    Clean (x ++ '/' :: '/' :: y) = Clean (x ++ '/' :: y) := by
  rw [Clean_eq_render _ (by simp), Clean_eq_render _ (by simp), stackOf_double_slash]
  have : isRooted (x ++ '/' :: '/' :: y) = isRooted (x ++ '/' :: y) := by
    cases x with
    | nil => simp [isRooted]
    | cons c t => simp [isRooted]
  rw [this]

theorem Clean_append_slash (a w : Str) (hw : '/' ∉ w) :
    Clean (a ++ '/' :: w) =
      render (isRooted (a ++ ['/'])) (cleanStep (isRooted (a ++ ['/']))
        (stackOf (isRooted (a ++ ['/'])) a) w) := by
  have hr : isRooted (a ++ '/' :: w) = isRooted (a ++ ['/']) := by
    cases a with
    | nil => simp [isRooted]
    | cons c t => simp [isRooted]
  rw [Clean_eq_render _ (by simp), hr, stackOf_append_slash _ _ _ hw]

theorem splitSlash_render (r : Bool) (s : List Str) (hs : GoodStack s) :
    splitSlash (render r s) =
      (if r then [[]] else []) ++ (if s = [] then [if r then [] else ['.']] else s.reverse) := by
  have hj : s ≠ [] → splitSlash (joinSlash s.reverse) = s.reverse := fun hne =>
    splitSlash_joinSlash _ (by simpa using hne) (fun c hc => (hs c (by simpa using hc)).2.2)
  cases r
  · by_cases h : s = []
    · subst h; simp [render, splitSlash]
    · simp only [render, Bool.false_eq_true, if_false, h, List.nil_append]
      exact hj h
  · by_cases h : s = []
    · subst h; simp [render, splitSlash, joinSlash]
    · simp only [render, if_true, h, if_false]
      simp only [splitSlash, if_true, hj h]
      rfl

theorem splitSlash_render_getLast (r : Bool) (s : List Str) (w : Str) (hs : GoodStack (w :: s)) :
    (splitSlash (render r (w :: s))).getLast? = some w := by
  rw [splitSlash_render r _ hs]
  simp

theorem render_inj (r : Bool) (s1 s2 : List Str) (h1 : GoodStack s1) (h2 : GoodStack s2)
    (h : render r s1 = render r s2) : s1 = s2 := by
  have e := congrArg splitSlash h
  rw [splitSlash_render r _ h1, splitSlash_render r _ h2] at e
  have e2 := List.append_cancel_left e
  by_cases a1 : s1 = [] <;> by_cases a2 : s2 = []
  · rw [a1, a2]
  · exfalso
    simp only [a1, a2, if_true, if_false] at e2
    have hm : (if r = true then ([] : Str) else ['.']) ∈ s2 := by
      have : (if r = true then ([] : Str) else ['.']) ∈ s2.reverse := by rw [← e2]; simp
      simpa using this
    have := h2 _ hm
    cases r <;> simp at this
  · exfalso
    simp only [a1, a2, if_true, if_false] at e2
    have hm : (if r = true then ([] : Str) else ['.']) ∈ s1 := by
      have : (if r = true then ([] : Str) else ['.']) ∈ s1.reverse := by rw [e2]; simp
      simpa using this
    have := h1 _ hm
    cases r <;> simp at this
  · simp only [a1, a2, if_false] at e2
    exact List.reverse_injective e2

/-! ### `Itoa`, `Ext` and `TrimSuffix` -/

theorem digitChar_toNat (d : Nat) (h : d < 10) : (digitChar d).toNat = 48 + d := by
  interval_cases d <;> rfl

theorem digitChar_ne_slash (d : Nat) (h : d < 10) : digitChar d ≠ '/' := by
  interval_cases d <;> decide

theorem itoaAux_decode (fuel n : Nat) (acc : Str) (h : n < fuel) :
    (itoaAux fuel n acc).foldl (fun a c => a * 10 + (c.toNat - 48)) 0 =
      acc.foldl (fun a c => a * 10 + (c.toNat - 48)) n := by
  induction fuel generalizing n acc with
  | zero => omega
  | succ f ih =>
    unfold itoaAux
    have hd : (digitChar (n % 10)).toNat - 48 = n % 10 := by
      rw [digitChar_toNat _ (Nat.mod_lt _ (by norm_num))]; omega
    by_cases h0 : n / 10 = 0
    · simp only [h0, if_true, List.foldl_cons, hd]
      have : n % 10 = n := by omega
      simp [this]
    · simp only [h0, if_false]
      rw [ih (n / 10) _ (by omega)]
      simp only [List.foldl_cons, hd]
      have : n / 10 * 10 + n % 10 = n := by omega
      rw [this]

theorem digitsValue_Itoa (n : Nat) : digitsValue (Itoa n) = n := by
  unfold digitsValue Itoa
  rw [itoaAux_decode _ _ _ (by omega)]
  rfl

theorem Itoa_injective (a b : Nat) (h : Itoa a = Itoa b) : a = b := by
  have := congrArg digitsValue h
  rwa [digitsValue_Itoa, digitsValue_Itoa] at this

theorem itoaAux_not_slash (fuel n : Nat) (acc : Str) (h : '/' ∉ acc) :
    '/' ∉ itoaAux fuel n acc := by
  induction fuel generalizing n acc with
  | zero => exact h
  | succ f ih =>
    unfold itoaAux
    have hd : '/' ∉ digitChar (n % 10) :: acc := by
      simp only [List.mem_cons, not_or]
      exact ⟨fun e => digitChar_ne_slash _ (Nat.mod_lt _ (by norm_num)) e.symm, h⟩
    by_cases h0 : n / 10 = 0
    · simpa only [h0, if_true] using hd
    · simp only [h0, if_false]
      exact ih _ _ hd

theorem Itoa_not_slash (n : Nat) : '/' ∉ Itoa n :=
  itoaAux_not_slash _ _ _ (by simp)

theorem extScan_spec (rev acc : Str) (h : '/' ∉ acc) :
    '/' ∉ extScan rev acc ∧ extScan rev acc <:+ rev.reverse ++ acc := by
  induction rev generalizing acc with
  | nil => simp [extScan]
  | cons c t ih =>
    unfold extScan
    by_cases h1 : c = '/'
    · simp [h1]
    · simp only [h1, if_false]
      by_cases h2 : c = '.'
      · simp only [h2, if_true]
        refine ⟨?_, ?_⟩
        · simp only [List.mem_cons, not_or]
          exact ⟨by decide, h⟩
        · simp
      · simp only [h2, if_false]
        have hc : '/' ∉ c :: acc := by
          simp only [List.mem_cons, not_or]
          exact ⟨fun e => h1 e.symm, h⟩
        obtain ⟨ha, hb⟩ := ih (c :: acc) hc
        exact ⟨ha, by simpa using hb⟩

theorem Ext_not_slash (p : Str) : '/' ∉ Ext p :=
  (extScan_spec p.reverse [] (by simp)).1

theorem Ext_suffix (p : Str) : Ext p <:+ p := by
  simpa using (extScan_spec p.reverse [] (by simp)).2

theorem TrimSuffix_append_Ext (p : Str) : TrimSuffix p (Ext p) ++ Ext p = p := by
  obtain ⟨t, ht⟩ := Ext_suffix p
  unfold TrimSuffix
  have hs : (Ext p).isSuffixOf p = true := by
    rw [List.isSuffixOf_iff_suffix]; exact ⟨t, ht⟩
  simp only [hs, if_true]
  generalize Ext p = e at ht
  subst ht
  simp

/-! ### Shape of the destination directory -/

theorem GetOutputDir_ends (Format : Time → Str → Str) (i : FileInfo) (now : Time) :
    ∃ d, i.GetOutputDir Format now = d ++ ['/'] := by
  unfold FileInfo.GetOutputDir
  by_cases hc : i.CameraName = []
  · simp only [hc, ne_eq, not_true_eq_false, if_false]
    exact ⟨_, (List.append_assoc _ _ _).symm⟩
  · simp only [hc, ne_eq, not_false_eq_true, if_true]
    exact ⟨_, (List.append_assoc _ _ _).symm⟩

theorem GetOutputDir_of_nonzero (Format : Time → Str → Str) (i : FileInfo) (now1 now2 : Time)
    (h : (firstNonZero [i.TimeOriginal, i.TimeDigitized, i.CreatedAt]).isSome = true) :
    i.GetOutputDir Format now1 = i.GetOutputDir Format now2 := by
  have hb : i.getBestDate now1 = i.getBestDate now2 := by
    rw [getBestDate_eq_firstNonZero, getBestDate_eq_firstNonZero]
    cases hf : firstNonZero [i.TimeOriginal, i.TimeDigitized, i.CreatedAt] with
    | none => simp [hf] at h
    | some t => rfl
  unfold FileInfo.GetOutputDir FileInfo.getDateDirName
  rw [hb]

/-! ### The candidates of the collision loop -/

theorem candidate_zero (Format : Time → Str → Str) (i : FileInfo) (clock : Nat → Time) :
    candidate Format i clock 0 = Clean (i.GetOutputDir Format (clock 0) ++ i.FileName) := rfl

theorem candidate_succ (Format : Time → Str → Str) (i : FileInfo) (clock : Nat → Time) (c : Nat) :
    candidate Format i clock (c + 1) =
      Clean (i.GetOutputDir Format (clock (c + 1)) ++ "/".toList
        ++ TrimSuffix i.FileName (Ext i.FileName) ++ "-".toList ++ Itoa (c + 1) ++ Ext i.FileName) :=
  rfl

theorem stem_tail (stem : Str) :
    ∃ t, '/' ∉ t ∧ ∀ d : Str, ∃ a, d ++ '/' :: stem = a ++ '/' :: t := by
  by_cases h : '/' ∈ stem
  · obtain ⟨p, t, e, ht⟩ := exists_last_slash stem h
    exact ⟨t, ht, fun d => ⟨d ++ '/' :: p, by simp [e]⟩⟩
  · exact ⟨stem, h, fun d => ⟨d, rfl⟩⟩

theorem suffixed_normal (t ext : Str) (c : Nat) (ht : '/' ∉ t) (he : '/' ∉ ext) :
    Normal (t ++ '-' :: (Itoa c ++ ext)) := by
  have hm : '-' ∈ t ++ '-' :: (Itoa c ++ ext) := by simp
  refine ⟨?_, ?_, ?_, ?_⟩
  · intro e; rw [e] at hm; simp at hm
  · intro e; rw [e] at hm; revert hm; decide
  · intro e; rw [e] at hm; revert hm; decide
  · have := Itoa_not_slash c
    simp only [List.mem_append, List.mem_cons, not_or]
    exact ⟨ht, by decide, this, he⟩

theorem candidate_forms (Format : Time → Str → Str) (i : FileInfo) :
    ∃ t, '/' ∉ t ∧ ∀ now, ∃ r s, GoodStack s ∧
      Clean (i.GetOutputDir Format now ++ i.FileName) =
        render r (cleanStep r s (t ++ Ext i.FileName)) ∧
      ∀ c, Clean (i.GetOutputDir Format now ++ "/".toList
          ++ TrimSuffix i.FileName (Ext i.FileName) ++ "-".toList ++ Itoa c ++ Ext i.FileName) =
        render r ((t ++ '-' :: (Itoa c ++ Ext i.FileName)) :: s) := by
  obtain ⟨t, ht, hd⟩ := stem_tail (TrimSuffix i.FileName (Ext i.FileName))
  refine ⟨t, ht, fun now => ?_⟩
  obtain ⟨d, hD⟩ := GetOutputDir_ends Format i now
  obtain ⟨a, ha⟩ := hd d
  have hext := Ext_not_slash i.FileName
  refine ⟨isRooted (a ++ ['/']), stackOf (isRooted (a ++ ['/'])) a, stackOf_good _ _, ?_, ?_⟩
  · have e : i.GetOutputDir Format now ++ i.FileName = a ++ '/' :: (t ++ Ext i.FileName) := by
      conv_lhs => rw [hD, ← TrimSuffix_append_Ext i.FileName]
      have : d ++ ['/'] ++ (TrimSuffix i.FileName (Ext i.FileName) ++ Ext i.FileName) =
          (d ++ '/' :: TrimSuffix i.FileName (Ext i.FileName)) ++ Ext i.FileName := by simp
      rw [this, ha]
      simp
    rw [e, Clean_append_slash _ _ (by simp [ht, hext])]
  · intro c
    have e : i.GetOutputDir Format now ++ "/".toList
        ++ TrimSuffix i.FileName (Ext i.FileName) ++ "-".toList ++ Itoa c ++ Ext i.FileName =
        d ++ '/' :: '/' :: (TrimSuffix i.FileName (Ext i.FileName)
          ++ '-' :: (Itoa c ++ Ext i.FileName)) := by
      rw [hD]; simp
    have e2 : d ++ '/' :: (TrimSuffix i.FileName (Ext i.FileName)
          ++ '-' :: (Itoa c ++ Ext i.FileName)) =
        a ++ '/' :: (t ++ '-' :: (Itoa c ++ Ext i.FileName)) := by
      have : d ++ '/' :: (TrimSuffix i.FileName (Ext i.FileName)
          ++ '-' :: (Itoa c ++ Ext i.FileName)) =
          (d ++ '/' :: TrimSuffix i.FileName (Ext i.FileName))
            ++ '-' :: (Itoa c ++ Ext i.FileName) := by simp
      rw [this, ha]
      simp
    have hn := suffixed_normal t (Ext i.FileName) c ht hext
    rw [e, Clean_double_slash, e2, Clean_append_slash _ _ hn.2.2.2, cleanStep_normal _ _ _ hn]

theorem suffixed_inj (t ext : Str) (a b : Nat)
    (h : t ++ '-' :: (Itoa a ++ ext) = t ++ '-' :: (Itoa b ++ ext)) : a = b := by
  have h1 := List.append_cancel_left h
  simp only [List.cons.injEq, true_and] at h1
  exact Itoa_injective a b (List.append_cancel_right h1)

theorem candidate_succ_inj (Format : Time → Str → Str) (i : FileInfo) (clock : Nat → Time)
    (a b : Nat) (h : candidate Format i clock (a + 1) = candidate Format i clock (b + 1)) :
    a = b := by
  obtain ⟨t, ht, hf⟩ := candidate_forms Format i
  obtain ⟨r1, s1, g1, _, c1⟩ := hf (clock (a + 1))
  obtain ⟨r2, s2, g2, _, c2⟩ := hf (clock (b + 1))
  have hext := Ext_not_slash i.FileName
  have n1 := suffixed_normal t (Ext i.FileName) (a + 1) ht hext
  have n2 := suffixed_normal t (Ext i.FileName) (b + 1) ht hext
  have gs1 : GoodStack ((t ++ '-' :: (Itoa (a + 1) ++ Ext i.FileName)) :: s1) := by
    intro x hx
    simp only [List.mem_cons] at hx
    rcases hx with rfl | hx
    · exact ⟨n1.1, n1.2.1, n1.2.2.2⟩
    · exact g1 x hx
  have gs2 : GoodStack ((t ++ '-' :: (Itoa (b + 1) ++ Ext i.FileName)) :: s2) := by
    intro x hx
    simp only [List.mem_cons] at hx
    rcases hx with rfl | hx
    · exact ⟨n2.1, n2.2.1, n2.2.2.2⟩
    · exact g2 x hx
  have l1 := splitSlash_render_getLast r1 s1 _ gs1
  have l2 := splitSlash_render_getLast r2 s2 _ gs2
  rw [candidate_succ, candidate_succ, c1 (a + 1), c2 (b + 1)] at h
  rw [h, l2] at l1
  simp only [Option.some.injEq] at l1
  have := suffixed_inj t _ _ _ l1
  omega

theorem cleanStep_ne_suffixed (r : Bool) (s : List Str) (t ext : Str) (c : Nat)
    (ht : '/' ∉ t) (he : '/' ∉ ext) :
    cleanStep r s (t ++ ext) ≠ (t ++ '-' :: (Itoa c ++ ext)) :: s := by
  have hn := suffixed_normal t ext c ht he
  have hlen : t ++ ext ≠ t ++ '-' :: (Itoa c ++ ext) := by
    intro e
    have := congrArg List.length e
    simp at this
    omega
  have hself : ∀ (w : Str) (l : List Str), l ≠ w :: l := by
    intro w l e
    have := congrArg List.length e
    simp at this
  unfold cleanStep
  by_cases h1 : t ++ ext = [] ∨ t ++ ext = ['.']
  · simp only [h1, if_true]
    exact hself _ _
  · simp only [h1, if_false]
    by_cases h2 : t ++ ext = ['.', '.']
    · simp only [h2, if_true]
      cases s with
      | nil =>
        cases r
        · simp only [Bool.false_eq_true, if_false]
          intro e
          simp only [List.cons.injEq, and_true] at e
          exact hn.2.2.1 e.symm
        · simp
      | cons top rest =>
        by_cases h3 : top = ['.', '.']
        · simp only [h3, if_true]
          intro e
          simp only [List.cons.injEq, and_true] at e
          exact hn.2.2.1 e.symm
        · simp only [h3, if_false]
          intro e
          have := congrArg List.length e
          simp only [List.length_cons] at this
          omega
    · simp only [h2, if_false]
      intro e
      simp only [List.cons.injEq, and_true] at e
      exact hlen e

theorem candidate_inj_of_nonzero (Format : Time → Str → Str) (i : FileInfo) (clock : Nat → Time)
    (hz : (firstNonZero [i.TimeOriginal, i.TimeDigitized, i.CreatedAt]).isSome = true)
    (a b : Nat) (h : candidate Format i clock a = candidate Format i clock b) : a = b := by
  obtain ⟨t, ht, hf⟩ := candidate_forms Format i
  obtain ⟨r, s, g, c0, c1⟩ := hf (clock 0)
  have hext := Ext_not_slash i.FileName
  have hD : ∀ n, i.GetOutputDir Format (clock n) = i.GetOutputDir Format (clock 0) :=
    fun n => GetOutputDir_of_nonzero Format i _ _ hz
  have key : ∀ n, candidate Format i clock 0 ≠ candidate Format i clock (n + 1) := by
    intro n e
    rw [candidate_zero, candidate_succ, hD (n + 1), c0, c1 (n + 1)] at e
    have n1 := suffixed_normal t (Ext i.FileName) (n + 1) ht hext
    have g0 : GoodStack (cleanStep r s (t ++ Ext i.FileName)) :=
      cleanStep_good r s _ g (by simp [ht, hext])
    have g1 : GoodStack ((t ++ '-' :: (Itoa (n + 1) ++ Ext i.FileName)) :: s) := by
      intro x hx
      simp only [List.mem_cons] at hx
      rcases hx with rfl | hx
      · exact ⟨n1.1, n1.2.1, n1.2.2.2⟩
      · exact g x hx
    exact cleanStep_ne_suffixed r s t _ (n + 1) ht hext (render_inj r _ _ g0 g1 e)
  cases a with
  | zero =>
    cases b with
    | zero => rfl
    | succ n => exact absurd h (key n)
  | succ m =>
    cases b with
    | zero => exact absurd h.symm (key m)
    | succ n => rw [candidate_succ_inj Format i clock m n h]

/-! ### The collision loop -/

theorem collisionLoop_reach (Format : Time → Str → Str) (i : FileInfo) (stat : Str → StatResult)
    (clock : Nat → Time) (n : Nat) :
    ∀ (c fuel : Nat),
      (∀ j, c ≤ j → j < c + n → stat (candidate Format i clock j) ≠ StatResult.notExist) →
      stat (candidate Format i clock (c + n)) = StatResult.notExist → n < fuel →
      i.collisionLoop Format stat clock (TrimSuffix i.FileName (Ext i.FileName)) fuel c
        (candidate Format i clock c) = some (candidate Format i clock (c + n)) := by
  induction n with
  | zero =>
    intro c fuel _ hfree hfuel
    cases fuel with
    | zero => omega
    | succ f =>
      unfold FileInfo.collisionLoop
      simp only [Nat.add_zero] at hfree
      simp [hfree]
  | succ m ih =>
    intro c fuel hall hfree hfuel
    cases fuel with
    | zero => omega
    | succ f =>
      unfold FileInfo.collisionLoop
      have hc : stat (candidate Format i clock c) ≠ StatResult.notExist :=
        hall c (le_refl c) (by omega)
      simp only [hc, if_false]
      have := ih (c + 1) f (fun j h1 h2 => hall j (by omega) (by omega))
        (by rw [show c + 1 + m = c + (m + 1) by omega]; exact hfree) (by omega)
      rw [show c + 1 + m = c + (m + 1) by omega] at this
      exact this

theorem collisionLoop_stuck (Format : Time → Str → Str) (i : FileInfo) (stat : Str → StatResult)
    (clock : Nat → Time)
    (hall : ∀ j, stat (candidate Format i clock j) ≠ StatResult.notExist) (fuel : Nat) :
    ∀ c, i.collisionLoop Format stat clock (TrimSuffix i.FileName (Ext i.FileName)) fuel c
      (candidate Format i clock c) = none := by
  induction fuel with
  | zero => intro c; rfl
  | succ f ih =>
    intro c
    unfold FileInfo.collisionLoop
    simp only [hall c, if_false]
    exact ih (c + 1)

theorem card_ge_of_inj (f : Nat → Str) (fs : List Str) (n : Nat)
    (hinj : ∀ a b, f a = f b → a = b) (hall : ∀ a, a < n → f a ∈ fs) :
    n ≤ fs.toFinset.card := by
  have := Finset.card_le_card_of_injOn (s := Finset.range n) (t := fs.toFinset) f
    (fun a ha => by simpa using hall a (by simpa using ha))
    (fun a _ b _ e => hinj a b e)
  simpa using this

theorem exists_first_free (cand : Nat → Str) (stat : Str → StatResult) (n : Nat)
    (h : ∃ m, m ≤ n ∧ stat (cand m) = StatResult.notExist) :
    ∃ k, k ≤ n ∧ stat (cand k) = StatResult.notExist ∧
      ∀ j, j < k → stat (cand j) ≠ StatResult.notExist := by
  classical
  have hex : ∃ m, stat (cand m) = StatResult.notExist := by
    obtain ⟨m, _, hm⟩ := h
    exact ⟨m, hm⟩
  refine ⟨Nat.find hex, ?_, Nat.find_spec hex, ?_⟩
  · obtain ⟨m, hmn, hm⟩ := h
    exact le_trans (Nat.find_min' hex hm) hmn
  · intro j hj
    exact Nat.find_min hex hj

theorem GetOutputFileName_eq_loop (Format : Time → Str → Str) (i : FileInfo)
    (stat : Str → StatResult) (clock : Nat → Time) (fuel : Nat) :
    i.GetOutputFileName Format stat clock fuel =
      i.collisionLoop Format stat clock (TrimSuffix i.FileName (Ext i.FileName)) fuel 0
        (candidate Format i clock 0) := rfl

theorem GetOutputFileName_of_first_free (Format : Time → Str → Str) (i : FileInfo)
    (stat : Str → StatResult) (clock : Nat → Time) (k : Nat)
    (hfree : stat (candidate Format i clock k) = StatResult.notExist)
    (hall : ∀ j, j < k → stat (candidate Format i clock j) ≠ StatResult.notExist)
    (fuel : Nat) (hfuel : k < fuel) :
    i.GetOutputFileName Format stat clock fuel = some (candidate Format i clock k) := by
  rw [GetOutputFileName_eq_loop]
  have := collisionLoop_reach Format i stat clock k 0 fuel
    (fun j _ h2 => hall j (by omega)) (by simpa using hfree) hfuel
  simpa using this

theorem GetOutputFileName_stuck (Format : Time → Str → Str) (i : FileInfo)
    (stat : Str → StatResult) (clock : Nat → Time)
    (hall : ∀ j, stat (candidate Format i clock j) ≠ StatResult.notExist) (fuel : Nat) :
    i.GetOutputFileName Format stat clock fuel = none := by
  rw [GetOutputFileName_eq_loop]
  exact collisionLoop_stuck Format i stat clock hall fuel 0

theorem exists_free_candidate (Format : Time → Str → Str) (i : FileInfo)
    (stat : Str → StatResult) (clock : Nat → Time) (fs : List Str)
    (hfs : ∀ p, stat p ≠ StatResult.notExist → p ∈ fs) :
    ∃ m, m ≤ fs.toFinset.card + 1 ∧ stat (candidate Format i clock m) = StatResult.notExist := by
  by_contra hcon
  push_neg at hcon
  have := card_ge_of_inj (fun a => candidate Format i clock (a + 1)) fs (fs.toFinset.card + 1)
    (fun a b e => candidate_succ_inj Format i clock a b e)
    (fun a ha => hfs _ (hcon (a + 1) (by omega)))
  omega

theorem exists_free_candidate_of_nonzero (Format : Time → Str → Str) (i : FileInfo)
    (stat : Str → StatResult) (clock : Nat → Time) (fs : List Str)
    (hfs : ∀ p, stat p ≠ StatResult.notExist → p ∈ fs)
    (hz : (firstNonZero [i.TimeOriginal, i.TimeDigitized, i.CreatedAt]).isSome = true) :
    ∃ m, m ≤ fs.toFinset.card ∧ stat (candidate Format i clock m) = StatResult.notExist := by
  by_contra hcon
  push_neg at hcon
  have := card_ge_of_inj (fun a => candidate Format i clock a) fs (fs.toFinset.card + 1)
    (fun a b e => candidate_inj_of_nonzero Format i clock hz a b e)
    (fun a ha => hfs _ (hcon a (by omega)))
  omega

theorem GetOutputFileName_first_free_aux (Format : Time → Str → Str) (i : FileInfo)
    (stat : Str → StatResult) (clock : Nat → Time) (fs : List Str)
    (hfs : ∀ p, stat p ≠ StatResult.notExist → p ∈ fs) :
    ∃ k, (∀ fuel, k < fuel →
        i.GetOutputFileName Format stat clock fuel = some (candidate Format i clock k)) ∧
      stat (candidate Format i clock k) = StatResult.notExist ∧
      (∀ j, j < k → stat (candidate Format i clock j) ≠ StatResult.notExist) := by
  obtain ⟨k, _, hfree, hall⟩ := exists_first_free (candidate Format i clock) stat _
    (exists_free_candidate Format i stat clock fs hfs)
  exact ⟨k, fun fuel hf => GetOutputFileName_of_first_free Format i stat clock k hfree hall fuel hf,
    hfree, hall⟩

theorem statOf_bounded (fs : List Str) (p : Str) (h : statOf fs p ≠ StatResult.notExist) :
    p ∈ fs := by
  by_contra hp
  simp [statOf, hp] at h

/-- C2 (amended). In a filesystem state in which `os.Stat` reports all but
finitely many paths as not existing, `GetOutputFileName` returns (for every
sufficient fuel) a path that `os.Stat` reports as not existing, and it is the
first such path of the sequence stem.ext, stem-1.ext, stem-2.ext, ... in the
destination directory: when the result carries counter `k`, no candidate with a
smaller counter, the un-suffixed one included, is reported as not existing;
when the un-suffixed candidate is reported as not existing it is the result.
Stem and extension concatenate to the file name. -/
theorem GetOutputFileName_first_free (Format : Time → Str → Str) (i : FileInfo)
    (stat : Str → StatResult) (clock : Nat → Time) (fs : List Str)
    (hfs : ∀ p, stat p ≠ StatResult.notExist → p ∈ fs) :
    TrimSuffix i.FileName (Ext i.FileName) ++ Ext i.FileName = i.FileName ∧
    (∃ k, (∀ fuel, k < fuel →
          i.GetOutputFileName Format stat clock fuel = some (candidate Format i clock k)) ∧
        stat (candidate Format i clock k) = StatResult.notExist ∧
        (∀ j, j < k → stat (candidate Format i clock j) ≠ StatResult.notExist)) ∧
    (stat (Clean (i.GetOutputDir Format (clock 0) ++ i.FileName)) = StatResult.notExist →
      ∀ fuel, 0 < fuel → i.GetOutputFileName Format stat clock fuel =
        some (Clean (i.GetOutputDir Format (clock 0) ++ i.FileName))) := by
  refine ⟨TrimSuffix_append_Ext i.FileName, ?_, ?_⟩
  · obtain ⟨k, _, hfree, hall⟩ := exists_first_free (candidate Format i clock) stat _
      (exists_free_candidate Format i stat clock fs hfs)
    exact ⟨k, fun fuel hf =>
      GetOutputFileName_of_first_free Format i stat clock k hfree hall fuel hf, hfree, hall⟩
  · intro h0 fuel hf
    exact GetOutputFileName_of_first_free Format i stat clock 0 h0 (fun j hj => by omega) fuel hf

/-- C10 (amended). For a record with a non-zero best date the candidates
produced for distinct counter values are pairwise distinct paths after
`path.Clean`; so in a filesystem state in which `os.Stat` reports every path
outside a finite list as not existing, the collision loop ends after at most
(number of listed paths) + 1 candidates: the result carries a counter `k` not
larger than the number of listed paths. -/
theorem collisionLoop_terminates (Format : Time → Str → Str) (i : FileInfo)
    (stat : Str → StatResult) (clock : Nat → Time) (fs : List Str)
    (hfs : ∀ p, stat p ≠ StatResult.notExist → p ∈ fs)
    (hz : (firstNonZero [i.TimeOriginal, i.TimeDigitized, i.CreatedAt]).isSome = true) :
    (∀ a b, candidate Format i clock a = candidate Format i clock b → a = b) ∧
    ∃ k, k ≤ fs.toFinset.card ∧ ∀ fuel, k < fuel →
      i.GetOutputFileName Format stat clock fuel = some (candidate Format i clock k) := by
  refine ⟨candidate_inj_of_nonzero Format i clock hz, ?_⟩
  obtain ⟨k, hk, hfree, hall⟩ := exists_first_free (candidate Format i clock) stat _
    (exists_free_candidate_of_nonzero Format i stat clock fs hfs hz)
  exact ⟨k, hk, fun fuel hf =>
    GetOutputFileName_of_first_free Format i stat clock k hfree hall fuel hf⟩

/-! ### The layout of the destination path -/

theorem Clean_root_join (root : Str) (l : List Str) (hl : l ≠ []) (hn : ∀ c ∈ l, Normal c)
    (hclean : Clean root = root) (hdot : root ≠ ['.']) (hslash : root ≠ ['/']) :
    Clean (root ++ '/' :: joinSlash l) = root ++ '/' :: joinSlash l := by
  have hne : root ≠ [] := by
    intro e
    rw [e] at hclean
    exact absurd hclean (by decide)
  have hr : isRooted (root ++ '/' :: joinSlash l) = isRooted root := by
    have := isRooted_append root ('/' :: joinSlash l) [] hne
    simpa using this
  have hst : stackOf (isRooted root) (root ++ '/' :: joinSlash l) =
      l.reverse ++ stackOf (isRooted root) root := by
    unfold stackOf
    rw [splitSlash_append_slash, splitSlash_joinSlash l hl (fun c hc => (hn c hc).2.2.2),
      List.foldl_append, foldl_cleanStep_normal _ _ _ hn]
  rw [Clean_eq_render _ (by simp), hr, hst]
  rw [Clean_eq_render _ hne] at hclean
  have hrev : l.reverse ≠ [] := by simpa using hl
  cases hroot : isRooted root
  · rw [hroot] at hclean
    have hs : stackOf false root ≠ [] := by
      intro e
      rw [e] at hclean
      exact hdot hclean.symm
    unfold render at hclean ⊢
    simp only [Bool.false_eq_true, if_false, hs] at hclean
    simp only [Bool.false_eq_true, if_false, List.append_eq_nil, hrev, false_and,
      List.reverse_append, List.reverse_reverse]
    rw [joinSlash_append _ _ (by simpa using hs) hl, hclean]
  · rw [hroot] at hclean
    have hs : stackOf true root ≠ [] := by
      intro e
      rw [e] at hclean
      exact hslash hclean.symm
    unfold render at hclean ⊢
    simp only [if_true] at hclean
    simp only [if_true, List.reverse_append, List.reverse_reverse]
    rw [joinSlash_append _ _ (by simpa using hs) hl]
    conv_rhs => rw [← hclean]
    simp

theorem GetOutputDir_append_FileName (Format : Time → Str → Str) (i : FileInfo) (now : Time) :
    i.GetOutputDir Format now ++ i.FileName =
      i.NewPath ++ '/' :: joinSlash
        ((if i.HasExif then [] else ["misc".toList ++ '/' :: i.FileType]) ++
        [Format (i.getBestDate now) "2006".toList ++ '/' ::
          Format (i.getBestDate now) "2006-01-02".toList] ++
        (if i.CameraName = [] then [] else [i.CameraName]) ++ [i.FileName]) := by
  unfold FileInfo.GetOutputDir FileInfo.getDateDirName
  cases hx : i.HasExif <;> by_cases hc : i.CameraName = [] <;> simp [hx, hc, joinSlash]

theorem joinSlash_layout (Format : Time → Str → Str) (i : FileInfo) (now : Time) :
    joinSlash (layout Format i now) =
      joinSlash
        ((if i.HasExif then [] else ["misc".toList ++ '/' :: i.FileType]) ++
        [Format (i.getBestDate now) "2006".toList ++ '/' ::
          Format (i.getBestDate now) "2006-01-02".toList] ++
        (if i.CameraName = [] then [] else [i.CameraName]) ++ [i.FileName]) := by
  unfold layout
  cases hx : i.HasExif <;> by_cases hc : i.CameraName = [] <;> simp [hx, hc, joinSlash]

theorem Clean_slash (root : Str) :
    Clean (root ++ ['/']) =
      render (isRooted (root ++ ['/'])) (stackOf (isRooted (root ++ ['/'])) root) := by
  rw [Clean_append_slash root [] (by simp), cleanStep_nil]

theorem joinSlash_good_ne (s : List Str) (hs : GoodStack s) (hne : s ≠ []) :
    joinSlash s.reverse ≠ [] ∧ joinSlash s.reverse ≠ ['.'] ∧ joinSlash s.reverse ≠ ['/'] := by
  have hsp : splitSlash (joinSlash s.reverse) = s.reverse :=
    splitSlash_joinSlash _ (by simpa using hne) (fun c hc => (hs c (by simpa using hc)).2.2)
  refine ⟨?_, ?_, ?_⟩
  · intro e
    rw [e] at hsp
    have : ([] : Str) ∈ s := by
      have : ([] : Str) ∈ s.reverse := by rw [← hsp]; simp [splitSlash]
      simpa using this
    exact (hs _ this).1 rfl
  · intro e
    rw [e] at hsp
    have : ['.'] ∈ s := by
      have : ['.'] ∈ s.reverse := by rw [← hsp]; decide
      simpa using this
    exact (hs _ this).2.1 rfl
  · intro e
    rw [e] at hsp
    have : ([] : Str) ∈ s := by
      have : ([] : Str) ∈ s.reverse := by rw [← hsp]; decide
      simpa using this
    exact (hs _ this).1 rfl

theorem Clean_slash_join (root : Str) (l : List Str) (hl : l ≠ []) (hn : ∀ c ∈ l, Normal c) :
    Clean (root ++ '/' :: joinSlash l) = pathJoin (Clean (root ++ ['/'])) l := by
  have hr : isRooted (root ++ '/' :: joinSlash l) = isRooted (root ++ ['/']) := by
    cases root with
    | nil => simp [isRooted]
    | cons c t => simp [isRooted]
  have hst : stackOf (isRooted (root ++ ['/'])) (root ++ '/' :: joinSlash l) =
      l.reverse ++ stackOf (isRooted (root ++ ['/'])) root := by
    unfold stackOf
    rw [splitSlash_append_slash, splitSlash_joinSlash l hl (fun c hc => (hn c hc).2.2.2),
      List.foldl_append, foldl_cleanStep_normal _ _ _ hn]
  rw [Clean_eq_render _ (by simp), hr, hst, Clean_slash]
  have hg := stackOf_good (isRooted (root ++ ['/'])) root
  generalize stackOf (isRooted (root ++ ['/'])) root = s at hg
  generalize isRooted (root ++ ['/']) = r
  have hrev : l.reverse ≠ [] := by simpa using hl
  by_cases hs : s = []
  · subst hs
    cases r
    · simp [render, pathJoin, hrev]
    · simp [render, pathJoin, joinSlash]
  · obtain ⟨h1, h2, h3⟩ := joinSlash_good_ne s hg hs
    have hsr : s.reverse ≠ [] := by simpa using hs
    cases r
    · simp only [render, Bool.false_eq_true, if_false, hs, List.append_eq_nil, hrev, false_and,
        List.reverse_append, List.reverse_reverse, pathJoin, h2, h3]
      exact joinSlash_append _ _ hsr hl
    · have e1 : ('/' :: joinSlash s.reverse) ≠ ['.'] := by simp
      have e2 : ('/' :: joinSlash s.reverse) ≠ ['/'] := by simpa using h1
      simp only [render, if_true, List.reverse_append, List.reverse_reverse, pathJoin, e1, e2,
        if_false]
      rw [joinSlash_append _ _ hsr hl]
      simp

theorem Clean_slash_of_ne_nil (root : Str) (h : root ≠ []) :
    Clean (root ++ ['/']) = Clean root := by
  have hr : isRooted (root ++ ['/']) = isRooted root := by
    cases root with
    | nil => exact absurd rfl h
    | cons c t => simp [isRooted]
  rw [Clean_slash, Clean_eq_render _ h, hr]

theorem layout_suffix_pathJoin (root : Str) (l : List Str) (hl : l ≠ [])
    (hn : ∀ c ∈ l, Normal c) : l <:+ splitSlash (pathJoin root l) := by
  have hsp : splitSlash (joinSlash l) = l :=
    splitSlash_joinSlash l hl (fun c hc => (hn c hc).2.2.2)
  unfold pathJoin
  split_ifs
  · rw [hsp]
  · have : splitSlash ('/' :: joinSlash l) = [] :: splitSlash (joinSlash l) := by
      simp [splitSlash]
    rw [this, hsp]
    exact List.suffix_cons _ _
  · rw [splitSlash_append_slash, hsp]
    exact List.suffix_append _ _

/-- C3 (amended). When every element required by the layout grammar is a
proper path element (not empty, not `.` or `..`, without separator: this
covers the file type of a file without EXIF, the two date strings, a non-empty
camera name and the file name) and the initial candidate is reported as not
existing, `GetOutputFileName` returns the output root, normalised by
`path.Clean`, followed by `misc` and the file type exactly when hasExif is
false, then the year, then the date, then the camera name exactly when it is
non-empty, then the file name, each as one path element and the file name
last. For an output root that is already clean and is neither `.` nor `/`
the returned path is the root, a slash and these elements, and lies under the
root. -/
theorem GetOutputFileName_layout (Format : Time → Str → Str) (i : FileInfo)
    (stat : Str → StatResult) (clock : Nat → Time)
    (hn : ∀ c ∈ layout Format i (clock 0), Normal c)
    (hfree : stat (Clean (i.GetOutputDir Format (clock 0) ++ i.FileName)) = StatResult.notExist)
    (fuel : Nat) (hfuel : 0 < fuel) :
    i.GetOutputFileName Format stat clock fuel =
        some (pathJoin (Clean (i.NewPath ++ ['/'])) (layout Format i (clock 0))) ∧
      layout Format i (clock 0) <:+
        splitSlash (pathJoin (Clean (i.NewPath ++ ['/'])) (layout Format i (clock 0))) ∧
      (i.NewPath ≠ [] → Clean (i.NewPath ++ ['/']) = Clean i.NewPath) ∧
      (Clean i.NewPath = i.NewPath → i.NewPath ≠ ['.'] → i.NewPath ≠ ['/'] →
        i.GetOutputFileName Format stat clock fuel =
          some (i.NewPath ++ '/' :: joinSlash (layout Format i (clock 0))) ∧
        splitSlash (i.NewPath ++ '/' :: joinSlash (layout Format i (clock 0))) =
          splitSlash i.NewPath ++ layout Format i (clock 0) ∧
        i.NewPath ++ ['/'] <+: i.NewPath ++ '/' :: joinSlash (layout Format i (clock 0))) := by
  have hl : layout Format i (clock 0) ≠ [] := by simp [layout]
  have hret : i.GetOutputFileName Format stat clock fuel =
      some (Clean (i.GetOutputDir Format (clock 0) ++ i.FileName)) := by
    rw [GetOutputFileName_of_first_free Format i stat clock 0 hfree (fun j hj => by omega) fuel
      hfuel, candidate_zero]
  have hshape : i.GetOutputDir Format (clock 0) ++ i.FileName =
      i.NewPath ++ '/' :: joinSlash (layout Format i (clock 0)) := by
    rw [GetOutputDir_append_FileName, ← joinSlash_layout]
  refine ⟨?_, layout_suffix_pathJoin _ _ hl hn, Clean_slash_of_ne_nil _, ?_⟩
  · rw [hret, hshape, Clean_slash_join _ _ hl hn]
  · intro hclean hdot hslash
    refine ⟨?_, ?_, ?_⟩
    · rw [hret, hshape, Clean_root_join _ _ hl hn hclean hdot hslash]
    · rw [splitSlash_append_slash, splitSlash_joinSlash _ hl (fun c hc => (hn c hc).2.2.2)]
    · exact ⟨joinSlash (layout Format i (clock 0)), by simp⟩

/-! ### The driver step -/

theorem processExifTags_paths (Parse : Str → Str → Time) (info : FileInfo) (et : List ExifTag) :
    (processExifTags Parse info et).OriginalPath = info.OriginalPath ∧
      (processExifTags Parse info et).FileName = info.FileName := by
  unfold processExifTags
  by_cases h : et.length = 0
  · simp [h]
  · simp only [h, if_false]
    have := foldl_tagStep_fields Parse et { info with HasExif := true }
    exact ⟨this.2.2.2.2.2.2.2.2.1, this.2.2.2.2.2.2.1⟩

theorem processExif_paths (Parse : Str → Str → Time) (info : FileInfo)
    (intfc : Option SegmentList) (parseErr : Option GoError) :
    (processExif Parse info intfc parseErr).1.OriginalPath = info.OriginalPath ∧
      (processExif Parse info intfc parseErr).1.FileName = info.FileName := by
  unfold processExif
  cases intfc with
  | none => cases parseErr <;> simp
  | some sl =>
    have hp := fun (x : FileInfo) et => processExifTags_paths Parse x et
    by_cases hs : sl.segments > 0 <;> cases h1 : sl.dump1.err <;> cases parseErr <;>
      cases h2 : sl.dump1.et <;> cases h3 : sl.dump2.err <;>
      simp [hs, h1, h2, h3, (hp _ _).1, (hp _ _).2]

theorem processHeic_paths (Parse : Str → Str → Time) (info : FileInfo)
    (mc : Option HeicMedia) (parseErr : Option GoError) :
    (processHeic Parse info mc parseErr).1.OriginalPath = info.OriginalPath ∧
      (processHeic Parse info mc parseErr).1.FileName = info.FileName := by
  unfold processHeic
  cases mc with
  | none => cases parseErr <;> simp
  | some m =>
    have hp := processExifTags_paths Parse info m.flatTags
    cases h1 : m.exifErr <;> cases h2 : m.flatErr <;> simp [h1, h2, hp.1, hp.2]

theorem enrich_GetOriginalFilePath (Parse : Str → Str → Time) (lower : Char → Char)
    (inputPath outputPath : Str) (file : DirEntry) (w : World) (created : Time) :
    (enrich Parse lower inputPath outputPath file w created).1.GetOriginalFilePath =
      inputPath ++ "/".toList ++ file.Name := by
  unfold enrich FileInfo.GetOriginalFilePath
  simp only
  split_ifs
  · simp only [(processExif_paths Parse _ _ _).1, (processExif_paths Parse _ _ _).2]
  · simp only [(processHeic_paths Parse _ _ _).1, (processHeic_paths Parse _ _ _).2]
  · rfl

theorem TrimLeft_dot_skip (w : Str) (hw : w ∈ skipFiles) : TrimLeft ('.' :: w) ".".toList = w := by
  simp only [skipFiles, List.mem_cons, List.mem_singleton, List.not_mem_nil, or_false] at hw
  rcases hw with rfl | rfl | rfl | rfl | rfl <;> decide

theorem GetOutputFileName_terminates (Format : Time → Str → Str) (i : FileInfo)
    (stat : Str → StatResult) (clock : Nat → Time) (fs : List Str)
    (hfs : ∀ p, stat p ≠ StatResult.notExist → p ∈ fs) :
    ∃ n dst, ∀ fuel, n < fuel → i.GetOutputFileName Format stat clock fuel = some dst := by
  obtain ⟨k, hk, _, _⟩ := GetOutputFileName_first_free_aux Format i stat clock fs hfs
  exact ⟨k, _, hk⟩

theorem skip_any_false (t : Str) (h : t ∉ skipFiles) :
    skipFiles.any (fun e => e == t) = false := by
  rw [List.any_eq_false]
  intro x hx hxe
  have : x = t := by simpa using hxe
  exact h (this ▸ hx)

theorem processEntry_of_noBirthTime (Format : Time → Str → Str) (Parse : Str → Str → Time)
    (lower : Char → Char) (inputPath outputPath : Str) (file : DirEntry) (w : World)
    (hdir : file.IsDir = false) (hreg : file.IsRegular = true)
    (hns : TrimLeft (ToLower lower (Ext file.Name)) ".".toList ∉ skipFiles)
    (hb : w.birth = TimesStat.noBirthTime) (fuel : Nat) :
    processEntry Format Parse lower inputPath outputPath file w fuel =
      StepResult.panicked [Action.timesStat (inputPath ++ "/".toList ++ file.Name)] := by
  unfold processEntry
  simp only [hdir, hreg, Bool.not_true, Bool.or_self, Bool.false_eq_true, if_false,
    skip_any_false _ hns, hb, createdAt]

theorem processEntry_of_stuck (Format : Time → Str → Str) (Parse : Str → Str → Time)
    (lower : Char → Char) (inputPath outputPath : Str) (file : DirEntry) (w : World)
    (hdir : file.IsDir = false) (hreg : file.IsRegular = true)
    (hns : TrimLeft (ToLower lower (Ext file.Name)) ".".toList ∉ skipFiles)
    (created : Time) (hb : createdAt file w.birth = some created) (fuel : Nat)
    (hstuck : (enrich Parse lower inputPath outputPath file w created).1.GetOutputFileName
      Format w.statBefore w.clockLog fuel = none) :
    processEntry Format Parse lower inputPath outputPath file w fuel = StepResult.outOfFuel := by
  unfold processEntry
  simp only [hdir, hreg, Bool.not_true, Bool.or_self, Bool.false_eq_true, if_false,
    skip_any_false _ hns, hb, hstuck]

/-- C6 (amended). An entry whose lower-cased extension is a dot followed by
one of exe, bat, ini, dropbox, app makes the driver step perform no call at all
(no extractor, no mkdir, no rename). A regular-file entry whose lower-cased
extension without its dot is not in that list makes the step end, for every
sufficient fuel, with a rename of the source path, provided `times.Stat` fails
or yields a birth time and `os.Stat` reports all but finitely many paths as not
existing, before and after the mkdir. -/
theorem processEntry_skip_or_rename (Format : Time → Str → Str) (Parse : Str → Str → Time)
    (lower : Char → Char) (inputPath outputPath : Str) (file : DirEntry) (w : World) :
    ((∃ ext ∈ skipFiles, ToLower lower (Ext file.Name) = '.' :: ext) →
      ∀ fuel, processEntry Format Parse lower inputPath outputPath file w fuel =
        StepResult.finished []) ∧
    (file.IsDir = false → file.IsRegular = true →
      TrimLeft (ToLower lower (Ext file.Name)) ".".toList ∉ skipFiles →
      w.birth ≠ TimesStat.noBirthTime →
      (∃ fs : List Str, ∀ p, w.statBefore p ≠ StatResult.notExist → p ∈ fs) →
      (∃ fs : List Str, ∀ p, w.statAfter p ≠ StatResult.notExist → p ∈ fs) →
      ∃ n trace dst, ∀ fuel, n < fuel →
        processEntry Format Parse lower inputPath outputPath file w fuel =
          StepResult.finished
            (trace ++ [Action.rename (inputPath ++ "/".toList ++ file.Name) dst])) := by
  refine ⟨?_, ?_⟩
  · rintro ⟨ext, hext, he⟩ fuel
    unfold processEntry
    by_cases hreg : (file.IsDir || !file.IsRegular) = true
    · simp [hreg]
    · have hskip : skipFiles.any (fun e => e == TrimLeft (ToLower lower (Ext file.Name))
          ".".toList) = true := by
        rw [he, TrimLeft_dot_skip ext hext, List.any_eq_true]
        exact ⟨ext, hext, by simp⟩
      simp only [hreg, Bool.false_eq_true, if_false, hskip, if_true]
  · rintro hdir hreg hns hbirth ⟨fs1, hfs1⟩ ⟨fs2, hfs2⟩
    obtain ⟨created, hc⟩ : ∃ t, createdAt file w.birth = some t := by
      cases hb : w.birth with
      | failed => exact ⟨_, rfl⟩
      | noBirthTime => exact absurd hb hbirth
      | birthTime t => exact ⟨_, rfl⟩
    obtain ⟨n1, d1, h1⟩ := GetOutputFileName_terminates Format
      (enrich Parse lower inputPath outputPath file w created).1 w.statBefore w.clockLog fs1 hfs1
    obtain ⟨n2, d2, h2⟩ := GetOutputFileName_terminates Format
      (enrich Parse lower inputPath outputPath file w created).1 w.statAfter w.clockRename fs2
      hfs2
    have hname : (enrich Parse lower inputPath outputPath file w created).1.GetOriginalFilePath =
        inputPath ++ "/".toList ++ file.Name := enrich_GetOriginalFilePath Parse lower _ _ _ _ _
    refine ⟨max n1 n2, (enrich Parse lower inputPath outputPath file w created).2 ++
      [Action.mkdirAll ((enrich Parse lower inputPath outputPath file w created).1.GetOutputDir
        Format w.nowMkdir)], d2, ?_⟩
    intro fuel hf
    unfold processEntry
    simp only [hdir, hreg, Bool.not_true, Bool.or_self, Bool.false_eq_true, if_false,
      skip_any_false _ hns, hc, h1 fuel (by omega), h2 fuel (by omega), hname]

/-! ### Witnesses and counterexamples on the sample inputs -/

theorem candidate_succ_under (Format : Time → Str → Str) (i : FileInfo) (clock : Nat → Time)
    (k : Nat) (l : List Str) (hl : l ≠ []) (hn : ∀ c ∈ l, Normal c)
    (hclean : Clean i.NewPath = i.NewPath) (hdot : i.NewPath ≠ ['.'])
    (hslash : i.NewPath ≠ ['/'])
    (hD : i.GetOutputDir Format (clock (k + 1)) = (i.NewPath ++ '/' :: joinSlash l) ++ ['/'])
    (hstem : '/' ∉ TrimSuffix i.FileName (Ext i.FileName)) :
    candidate Format i clock (k + 1) =
      i.NewPath ++ '/' :: joinSlash (l ++ [TrimSuffix i.FileName (Ext i.FileName)
        ++ '-' :: (Itoa (k + 1) ++ Ext i.FileName)]) := by
  have hw := suffixed_normal (TrimSuffix i.FileName (Ext i.FileName)) (Ext i.FileName) (k + 1)
    hstem (Ext_not_slash i.FileName)
  have e : i.GetOutputDir Format (clock (k + 1)) ++ "/".toList
      ++ TrimSuffix i.FileName (Ext i.FileName) ++ "-".toList ++ Itoa (k + 1) ++ Ext i.FileName =
      (i.NewPath ++ '/' :: joinSlash l) ++ '/' :: '/' :: (TrimSuffix i.FileName (Ext i.FileName)
        ++ '-' :: (Itoa (k + 1) ++ Ext i.FileName)) := by
    rw [hD]; simp
  have e2 : (i.NewPath ++ '/' :: joinSlash l) ++ '/' :: (TrimSuffix i.FileName (Ext i.FileName)
        ++ '-' :: (Itoa (k + 1) ++ Ext i.FileName)) =
      i.NewPath ++ '/' :: joinSlash (l ++ [TrimSuffix i.FileName (Ext i.FileName)
        ++ '-' :: (Itoa (k + 1) ++ Ext i.FileName)]) := by
    rw [joinSlash_append l _ hl (by simp)]
    simp [joinSlash]
  rw [candidate_succ, e, Clean_double_slash, e2]
  refine Clean_root_join _ _ (by simp) ?_ hclean hdot hslash
  intro c hc
  simp only [List.mem_append, List.mem_singleton] at hc
  rcases hc with hc | rfl
  · exact hn c hc
  · exact hw

theorem sampleFullExif_blocked (j : Nat) :
    statBlocked ["out".toList] "out/2021".toList (candidate formatUTC sampleFullExif sampleClock j)
      ≠ StatResult.notExist := by
  cases j with
  | zero => decide
  | succ k =>
    have hD : sampleFullExif.GetOutputDir formatUTC (sampleClock (k + 1)) =
        (sampleFullExif.NewPath ++ '/' :: joinSlash
          ["2021".toList, "2021-06-15".toList, "Canon EOS 5D".toList]) ++ ['/'] :=
      (GetOutputDir_of_nonzero formatUTC sampleFullExif _ (sampleClock 0) (by decide)).trans
        (by decide)
    rw [candidate_succ_under formatUTC sampleFullExif sampleClock k _ (by decide) (by decide)
      (by decide) (by decide) (by decide) hD (by decide)]
    simp [statBlocked, joinSlash, sampleFullExif, FileInfo.new, List.isPrefixOf]

theorem sampleNotes_blocked (j : Nat) :
    statBlocked ["out".toList] "out/misc".toList (candidate formatUTC sampleNotes sampleClock j)
      ≠ StatResult.notExist := by
  cases j with
  | zero => decide
  | succ k =>
    have hD : sampleNotes.GetOutputDir formatUTC (sampleClock (k + 1)) =
        (sampleNotes.NewPath ++ '/' :: joinSlash
          ["misc".toList, "txt".toList, "2020".toList, "2020-03-04".toList]) ++ ['/'] :=
      (GetOutputDir_of_nonzero formatUTC sampleNotes _ (sampleClock 0) (by decide)).trans
        (by decide)
    rw [candidate_succ_under formatUTC sampleNotes sampleClock k _ (by decide) (by decide)
      (by decide) (by decide) (by decide) hD (by decide)]
    simp [statBlocked, joinSlash, sampleNotes, FileInfo.new, List.isPrefixOf]

theorem statBlocked_found (dirs : List Str) (file p : Str)
    (h : statBlocked dirs file p = StatResult.found) : p ∈ dirs ++ [file] := by
  unfold statBlocked at h
  split_ifs at h with h1
  simpa using h1

/-- Witness of `GetOutputFileName_layout`: scenario 1 of the specification
with the output root written `./sorted/`. -/
theorem GetOutputFileName_layout_witness :
    { sampleFullExif with NewPath := "./sorted/".toList }.GetOutputFileName formatUTC
        (statOf []) sampleClock 1 =
      some "sorted/2021/2021-06-15/Canon EOS 5D/IMG_0001.JPG".toList :=
  (GetOutputFileName_layout formatUTC { sampleFullExif with NewPath := "./sorted/".toList }
    (statOf []) sampleClock (by decide) (by decide) 1 (by decide)).1.trans (by decide)

/-- C3 (counterexample). A file without extension and without EXIF is placed
under `misc` directly: the element for the file type is missing from the
returned path. A camera name made of `..` elements takes the returned path out
of the output root. A file name `..` is not the last element of the returned
path. -/
theorem GetOutputFileName_layout_fails :
    ('/' ∉ sampleNoExtension.FileName ∧
      sampleNoExtension.GetOutputFileName formatUTC (statOf []) sampleClock 1 =
        some "out/misc/2020/2020-03-04/README".toList ∧
      layout formatUTC sampleNoExtension (sampleClock 0) =
        ["misc".toList, [], "2020".toList, "2020-03-04".toList, "README".toList] ∧
      sampleNoExtension.GetOutputFileName formatUTC (statOf []) sampleClock 1 ≠
        some (sampleNoExtension.NewPath ++
          '/' :: joinSlash (layout formatUTC sampleNoExtension (sampleClock 0)))) ∧
    ('/' ∉ sampleDotDotCamera.FileName ∧
      sampleDotDotCamera.GetOutputFileName formatUTC (statOf []) sampleClock 1
        = some "a.jpg".toList ∧
      List.isPrefixOf sampleDotDotCamera.NewPath "a.jpg".toList = false) ∧
    ('/' ∉ "..".toList ∧
      { sampleNotes with FileName := "..".toList }.GetOutputFileName formatUTC (statOf [])
        sampleClock 1 = some "out/misc/txt/2020".toList) := by
  decide

/-- Witness of `GetOutputFileName_first_free`: with `notes.txt` and
`notes-1.txt` taken the result is `notes-2.txt`. -/
theorem GetOutputFileName_first_free_witness :
    sampleNotes.GetOutputFileName formatUTC
        (statOf ["out/misc/txt/2020/2020-03-04/notes.txt".toList,
          "out/misc/txt/2020/2020-03-04/notes-1.txt".toList]) sampleClock 3 =
      some "out/misc/txt/2020/2020-03-04/notes-2.txt".toList ∧
    ∃ k, (∀ fuel, k < fuel →
        sampleNotes.GetOutputFileName formatUTC
          (statOf ["out/misc/txt/2020/2020-03-04/notes.txt".toList,
            "out/misc/txt/2020/2020-03-04/notes-1.txt".toList]) sampleClock fuel =
          some (candidate formatUTC sampleNotes sampleClock k)) ∧
      statOf ["out/misc/txt/2020/2020-03-04/notes.txt".toList,
          "out/misc/txt/2020/2020-03-04/notes-1.txt".toList]
        (candidate formatUTC sampleNotes sampleClock k) = StatResult.notExist ∧
      ∀ j, j < k →
        statOf ["out/misc/txt/2020/2020-03-04/notes.txt".toList,
            "out/misc/txt/2020/2020-03-04/notes-1.txt".toList]
          (candidate formatUTC sampleNotes sampleClock j) ≠ StatResult.notExist :=
  ⟨by decide,
    (GetOutputFileName_first_free formatUTC sampleNotes
      (statOf ["out/misc/txt/2020/2020-03-04/notes.txt".toList,
        "out/misc/txt/2020/2020-03-04/notes-1.txt".toList]) sampleClock _
      (statOf_bounded _)).2.1⟩

/-- C2 (counterexample). Only `out` and the regular file `out/misc` exist;
`os.Stat` fails with "not a directory" on every candidate for `notes.txt`, the
loop never reaches its `break` and `GetOutputFileName` returns nothing,
whatever the fuel. -/
theorem GetOutputFileName_never_returns :
    (∀ p, statBlocked ["out".toList] "out/misc".toList p = StatResult.found →
      p ∈ ["out".toList, "out/misc".toList]) ∧
    ∀ fuel, sampleNotes.GetOutputFileName formatUTC
      (statBlocked ["out".toList] "out/misc".toList) sampleClock fuel = none :=
  ⟨fun p h => statBlocked_found _ _ p h,
    fun fuel => GetOutputFileName_stuck formatUTC sampleNotes _ sampleClock sampleNotes_blocked
      fuel⟩

/-- Witness of `collisionLoop_terminates`: with the un-suffixed path taken the
loop ends on a candidate with counter at most 1. -/
theorem collisionLoop_terminates_witness :
    (firstNonZero [sampleFullExif.TimeOriginal, sampleFullExif.TimeDigitized,
        sampleFullExif.CreatedAt]).isSome = true ∧
    ∃ k, k ≤ ["out/2021/2021-06-15/Canon EOS 5D/IMG_0001.JPG".toList].toFinset.card ∧
      ∀ fuel, k < fuel →
        sampleFullExif.GetOutputFileName formatUTC
          (statOf ["out/2021/2021-06-15/Canon EOS 5D/IMG_0001.JPG".toList]) sampleClock fuel =
        some (candidate formatUTC sampleFullExif sampleClock k) :=
  ⟨by decide,
    (collisionLoop_terminates formatUTC sampleFullExif
      (statOf ["out/2021/2021-06-15/Canon EOS 5D/IMG_0001.JPG".toList]) sampleClock _
      (statOf_bounded _) (by decide)).2⟩

/-- C10 (counterexample). The record of scenario 1 has a non-zero best date;
only `out` and the regular file `out/2021` exist; `os.Stat` fails with "not a
directory" on every candidate and the collision loop never ends, whatever the
fuel. -/
theorem collisionLoop_never_ends :
    (firstNonZero [sampleFullExif.TimeOriginal, sampleFullExif.TimeDigitized,
        sampleFullExif.CreatedAt]).isSome = true ∧
    (∀ p, statBlocked ["out".toList] "out/2021".toList p = StatResult.found →
      p ∈ ["out".toList, "out/2021".toList]) ∧
    ∀ fuel, sampleFullExif.GetOutputFileName formatUTC
      (statBlocked ["out".toList] "out/2021".toList) sampleClock fuel = none :=
  ⟨by decide, fun p h => statBlocked_found _ _ p h,
    fun fuel => GetOutputFileName_stuck formatUTC sampleFullExif _ sampleClock
      sampleFullExif_blocked fuel⟩

/-- Witness of `processEntry_skip_or_rename`: `installer.EXE` is left alone,
`notes.txt` is renamed. -/
theorem processEntry_skip_or_rename_witness :
    (∀ fuel, processEntry formatUTC parseNothing Char.toLower "in".toList "out".toList
      ⟨"installer.EXE".toList, false, true, timeUnix 1583280000⟩ sampleWorld fuel =
        StepResult.finished []) ∧
    (∃ n trace dst, ∀ fuel, n < fuel →
      processEntry formatUTC parseNothing Char.toLower "in".toList "out".toList
        sampleNotesEntry sampleWorld fuel =
      StepResult.finished
        (trace ++ [Action.rename ("in".toList ++ "/".toList ++ sampleNotesEntry.Name) dst])) ∧
    processEntry formatUTC parseNothing Char.toLower "in".toList "out".toList
        sampleNotesEntry sampleWorld 1 =
      StepResult.finished [Action.timesStat "in/notes.txt".toList,
        Action.mkdirAll "out/misc/txt/2020/2020-03-04/".toList,
        Action.rename "in/notes.txt".toList "out/misc/txt/2020/2020-03-04/notes.txt".toList] :=
  ⟨(processEntry_skip_or_rename formatUTC parseNothing Char.toLower "in".toList "out".toList
      ⟨"installer.EXE".toList, false, true, timeUnix 1583280000⟩ sampleWorld).1
      ⟨"exe".toList, by decide, by decide⟩,
    (processEntry_skip_or_rename formatUTC parseNothing Char.toLower "in".toList "out".toList
      sampleNotesEntry sampleWorld).2
      (by decide) (by decide) (by decide) (by decide)
      ⟨[], statOf_bounded []⟩ ⟨[], statOf_bounded []⟩,
    by decide⟩

/-- C6 (counterexample). The regular file `notes.txt` is not in the skip list,
yet no rename is attempted when `times.Stat` succeeds without a birth time (the
step panics after `times.Stat`), nor when `out/misc` is a regular file (the
first collision loop never ends). -/
theorem processEntry_without_rename :
    sampleNotesEntry.IsDir = false ∧ sampleNotesEntry.IsRegular = true ∧
    TrimLeft (ToLower Char.toLower (Ext sampleNotesEntry.Name)) ".".toList ∉ skipFiles ∧
    (∀ fuel, processEntry formatUTC parseNothing Char.toLower "in".toList "out".toList
      sampleNotesEntry { sampleWorld with birth := TimesStat.noBirthTime } fuel =
        StepResult.panicked [Action.timesStat "in/notes.txt".toList]) ∧
    (∀ fuel, processEntry formatUTC parseNothing Char.toLower "in".toList "out".toList
      sampleNotesEntry
      { sampleWorld with statBefore := statBlocked ["out".toList] "out/misc".toList } fuel =
        StepResult.outOfFuel) :=
  ⟨by decide, by decide, by decide,
    fun fuel => processEntry_of_noBirthTime formatUTC parseNothing Char.toLower "in".toList
      "out".toList sampleNotesEntry { sampleWorld with birth := TimesStat.noBirthTime }
      (by decide) (by decide) (by decide) rfl fuel,
    fun fuel => processEntry_of_stuck formatUTC parseNothing Char.toLower "in".toList
      "out".toList sampleNotesEntry
      { sampleWorld with statBefore := statBlocked ["out".toList] "out/misc".toList }
      (by decide) (by decide) (by decide) (timeUnix 1583280000) (by decide) fuel
      (by
        have he : (enrich parseNothing Char.toLower "in".toList "out".toList sampleNotesEntry
            { sampleWorld with statBefore := statBlocked ["out".toList] "out/misc".toList }
            (timeUnix 1583280000)).1 = sampleNotes := by decide
        rw [he]
        exact GetOutputFileName_stuck formatUTC sampleNotes _ sampleClock sampleNotes_blocked
          fuel)⟩

end PhotoSorter
